import Mathlib

/-!
# icloud-album-go: a verification development

Shallow embedding of `pkg/icloudalbum` (baseurl.go, models.go, enrich.go, utils.go,
api.go, redirect.go, download.go, icloud.go) and theorems about it.

Conventions of the embedding
* A Go `string` holding well-formed UTF-8 is a Lean `String`; its runes are `String.data`.
* A Go pointer field (`*string`, `*Uint32OrString`) is an `Option`; `nil` is `none`.
* A Go `map[string]V` is the list of its entries `List (String × V)`; a map has
  pairwise distinct keys, which theorems assume where they need it.  The order in
  which a `range` loop visits a map is unspecified in Go: it is the order of the list
  handed to the loop, and theorems quantify over it.
* Errors are returned through `Except`.
-/

deriving instance DecidableEq for Except

namespace ICloudAlbum

/-! ## baseurl.go -/

/-- The sentinel errors declared in baseurl.go. -/
inductive TokenError where
  | ErrEmptyToken
  | ErrInvalidBase62
  deriving DecidableEq, Repr

/-- Go `unicode.IsSpace`: the Latin-1 spaces `\t \n \v \f \r`, space, U+0085, U+00A0,
and the code points with the Unicode White_Space property. -/
def isSpace (r : Char) : Bool :=
  let n := r.toNat
  (9 ≤ n && n ≤ 13) || n == 0x20 || n == 0x85 || n == 0xA0 || n == 0x1680 ||
    (0x2000 ≤ n && n ≤ 0x200A) || n == 0x2028 || n == 0x2029 || n == 0x202F ||
    n == 0x205F || n == 0x3000

/-- Go `strings.TrimSpace` on the runes of a string: leading and trailing white space
removed. -/
def trimSpace (s : List Char) : List Char :=
  ((s.dropWhile isSpace).reverse.dropWhile isSpace).reverse

/-- Go `charToBase62`: the rune is compared through its code point. -/
def charToBase62 (r : Char) : Except TokenError Nat :=
  if '0'.toNat ≤ r.toNat ∧ r.toNat ≤ '9'.toNat then
    .ok (r.toNat - '0'.toNat)
  else if 'A'.toNat ≤ r.toNat ∧ r.toNat ≤ 'Z'.toNat then
    .ok ((r.toNat - 'A'.toNat) + 10)
  else if 'a'.toNat ≤ r.toNat ∧ r.toNat ≤ 'z'.toNat then
    .ok ((r.toNat - 'a'.toNat) + 36)
  else
    .error .ErrInvalidBase62

/-- Go `calculatePartition`.  The empty rune list cannot reach the indexing
`[]rune(token)[0]`, the guard above it has returned already. -/
def calculatePartition (token : String) : Except TokenError Nat :=
  if token.data = [] ∨ trimSpace token.data = [] then
    .error .ErrEmptyToken
  else
    match token.data with
    | [] => .error .ErrEmptyToken
    | r :: _ =>
      match charToBase62 r with
      | .error e => .error e
      | .ok v => .ok (1 + (v % 40))

/-- Go `fmt.Sprintf("%02d", n)` for an unsigned `n`: decimal digits, padded on the left
with zeros to a width of two. -/
def fmt02d (n : Nat) : String :=
  let s := Nat.repr n
  "".pushn '0' (2 - s.length) ++ s

/-- Go `GetBaseURL`. -/
def GetBaseURL (token : String) : Except TokenError String :=
  match calculatePartition token with
  | .error e => .error e
  | .ok part =>
    .ok ("https://p" ++ fmt02d part ++ "-sharedstreams.icloud.com/" ++ token ++ "/sharedstreams/")

/-! ### Vocabulary of the specification for tokens -/

/-- The base-62 alphabet in the order the specification lists it. -/
def base62Alphabet : List Char :=
  "0123456789ABCDEFGHIJKLMNOPQRSTUVWXYZabcdefghijklmnopqrstuvwxyz".data

/-- The specification's value of a character: `0`..`9` are 0..9, `A`..`Z` are 10..35,
`a`..`z` are 36..61, that is the position in the alphabet. -/
def specBase62Value (c : Char) : Nat :=
  base62Alphabet.indexOf c

/-- An ASCII alphanumeric character, `[0-9A-Za-z]`. -/
def isAsciiAlnum (c : Char) : Prop :=
  (48 ≤ c.toNat ∧ c.toNat ≤ 57) ∨ (65 ≤ c.toNat ∧ c.toNat ≤ 90) ∨
    (97 ≤ c.toNat ∧ c.toNat ≤ 122)

instance (c : Char) : Decidable (isAsciiAlnum c) := by
  unfold isAsciiAlnum; infer_instance

/-- A token that is empty or made of white space only. -/
def whitespaceOnly (token : String) : Prop :=
  ∀ c ∈ token.data, isSpace c = true

instance (token : String) : Decidable (whitespaceOnly token) := by
  unfold whitespaceOnly; infer_instance

/-- The token has a first character and it is not an ASCII alphanumeric. -/
def firstCharNotAlnum (token : String) : Prop :=
  match token.data with
  | [] => False
  | c :: _ => ¬ isAsciiAlnum c

/-- Exactly two decimal digits for a number below 100. -/
def twoDigits (p : Nat) : String :=
  String.mk [Char.ofNat (48 + p / 10), Char.ofNat (48 + p % 10)]

/-! ## models.go -/

/-- Go `Derivative`.  `Uint64OrString` and `Uint32OrString` values are natural numbers
(below `2^64` and `2^32`, see `Derivative.wf`). -/
structure Derivative where
  Checksum : String
  FileSize : Option Nat
  Width : Option Nat
  Height : Option Nat
  URL : Option String
  deriving DecidableEq, Repr

/-- Go `Image`. -/
structure Image where
  PhotoGUID : String
  Derivatives : List (String × Derivative)
  Caption : Option String
  DateCreated : Option String
  BatchDateCreated : Option String
  Width : Option Nat
  Height : Option Nat
  deriving DecidableEq, Repr

/-- The numeric fields of a derivative fit their Go types. -/
def Derivative.wf (d : Derivative) : Prop :=
  (∀ n, d.FileSize = some n → n < 2 ^ 64) ∧ (∀ w, d.Width = some w → w < 2 ^ 32) ∧
    (∀ h, d.Height = some h → h < 2 ^ 32)

/-- The keys of a map, in the order of its entries. -/
def mapKeys {V : Type} (m : List (String × V)) : List String :=
  m.map Prod.fst

/-- Go `v, ok := m[k]`. -/
def mapGet {V : Type} (m : List (String × V)) (k : String) : Option V :=
  match m with
  | [] => none
  | (k', v) :: rest => if k' = k then some v else mapGet rest k

/-- Go `m[k] = v`: the entry of `k` is replaced where it stands, a new key is added. -/
def mapSet {V : Type} (m : List (String × V)) (k : String) (v : V) : List (String × V) :=
  match m with
  | [] => [(k, v)]
  | (k', v') :: rest => if k' = k then (k, v) :: rest else (k', v') :: mapSet rest k v

/-! ## enrich.go -/

/-- Go `for k, d := range m { ... m[k] = d ... }`: the keys present at loop entry are
visited in the order of the entries, each visit reads the current value of its key and
runs the body on the current map. -/
def rangeUpdate (m : List (String × Derivative))
    (body : List (String × Derivative) → String → Derivative → List (String × Derivative)) :
    List (String × Derivative) :=
  (mapKeys m).foldl
    (fun acc k =>
      match mapGet acc k with
      | some d => body acc k d
      | none => acc)
    m

/-- Body of the first loop of `EnrichPhotosWithURLs` (checksum matches). -/
def checksumBody (allURLs : List (String × String)) (acc : List (String × Derivative))
    (k : String) (d : Derivative) : List (String × Derivative) :=
  if d.URL = none then
    match mapGet allURLs d.Checksum with
    | some u => mapSet acc k { d with URL := some u }
    | none => acc
  else acc

/-- Body of the second loop of `EnrichPhotosWithURLs` (per-photo GUID fallback). -/
def guidBody (u : String) (acc : List (String × Derivative))
    (k : String) (d : Derivative) : List (String × Derivative) :=
  if d.URL = none then mapSet acc k { d with URL := some u } else acc

/-- One iteration of the outer loop of `EnrichPhotosWithURLs`, on `photos[pi]`. -/
def enrichPhoto (allURLs : List (String × String)) (p : Image) : Image :=
  let d1 := rangeUpdate p.Derivatives (checksumBody allURLs)
  let d2 :=
    match mapGet allURLs p.PhotoGUID with
    | some u => rangeUpdate d1 (guidBody u)
    | none => d1
  { p with Derivatives := d2 }

/-- Go `EnrichPhotosWithURLs` on photos that each hold a derivative map of their own
(as the photos decoded from a response do): the slice is updated in place, element by
element; the result is the slice after the call.  `EnrichPhotosWithURLsRef` below is the
same function with the maps held by reference, where photos may share a map, and
`EnrichPhotosWithURLsRef_owned` relates the two. -/
def EnrichPhotosWithURLs (photos : List Image) (allURLs : List (String × String)) :
    List Image :=
  photos.map (enrichPhoto allURLs)

/-! ## utils.go: SelectBestDerivative -/

/-- Go `unicode.ToLower` on one rune: ASCII capitals are shifted, other ASCII runes are
kept, and a rune outside ASCII goes through the Unicode case table `tbl` of the Go
standard library. -/
def toLowerRune (tbl : Char → Char) (c : Char) : Char :=
  if c.toNat < 128 then
    (if 65 ≤ c.toNat ∧ c.toNat ≤ 90 then Char.ofNat (c.toNat + 32) else c)
  else tbl c

/-- Go `strings.ToLower`. -/
def toLower (tbl : Char → Char) (s : String) : List Char :=
  s.data.map (toLowerRune tbl)

/-- Go `strings.Contains`. -/
def containsSub (s sub : List Char) : Bool :=
  s.tails.any (fun t => sub.isPrefixOf t)

/-- The `isOriginal` flag computed in the loop of `SelectBestDerivative`. -/
def isOriginalKey (tbl : Char → Char) (k : String) : Bool :=
  containsSub (toLower tbl k) "original".data || containsSub (toLower tbl k) "full".data ||
    k == "3" || k == "4"

/-- Go `uint64(*v.Width) * uint64(*v.Height)`. -/
def pixels (w h : Nat) : Nat :=
  (w * h) % 2 ^ 64

/-- The local variables of `SelectBestDerivative`.  `best` holds the derivative that
the pointer refers to (each iteration has its own `v`). -/
structure SelectState where
  bestKey : String
  best : Option Derivative
  maxPixels : Nat
  haveOrig : Bool
  deriving DecidableEq, Repr

/-- The values of the locals before the loop. -/
def SelectState.init : SelectState :=
  { bestKey := "", best := none, maxPixels := 0, haveOrig := false }

/-- One iteration of the main loop of `SelectBestDerivative`. -/
def selectStep (tbl : Char → Char) (st : SelectState) (kv : String × Derivative) :
    SelectState :=
  match kv.2.URL with
  | none => st
  | some _ =>
    if isOriginalKey tbl kv.1 then
      let st1 := { st with haveOrig := true }
      match kv.2.Width, kv.2.Height with
      | some w, some h =>
        if pixels w h > st1.maxPixels then
          { st1 with maxPixels := pixels w h, bestKey := kv.1, best := some kv.2 }
        else st1
      | _, _ =>
        if st1.best = none then { st1 with bestKey := kv.1, best := some kv.2 } else st1
    else if st.haveOrig = false then
      match kv.2.Width, kv.2.Height with
      | some w, some h =>
        if pixels w h > st.maxPixels then
          { st with maxPixels := pixels w h, bestKey := kv.1, best := some kv.2 }
        else st
      | _, _ => st
    else st

/-- The four results of `SelectBestDerivative`. -/
structure SelectResult where
  key : String
  d : Derivative
  url : String
  ok : Bool
  deriving DecidableEq, Repr

/-- Go `Derivative{}`. -/
def Derivative.zero : Derivative :=
  { Checksum := "", FileSize := none, Width := none, Height := none, URL := none }

/-- Go `return "", Derivative{}, "", false`. -/
def SelectResult.notFound : SelectResult :=
  { key := "", d := Derivative.zero, url := "", ok := false }

/-- Go `SelectBestDerivative`.  The map is given twice, as the entries in the order
the main loop visits them (`loop1`) and in the order the fallback loop visits them
(`loop2`).  `*best.URL` reads a pointer that the loop has checked to be non-nil. -/
def SelectBestDerivative (tbl : Char → Char) (loop1 loop2 : List (String × Derivative)) :
    SelectResult :=
  if loop1.length = 0 then SelectResult.notFound
  else
    let st := loop1.foldl (selectStep tbl) SelectState.init
    match st.best with
    | some b => { key := st.bestKey, d := b, url := b.URL.getD "", ok := true }
    | none =>
      match loop2.find? (fun kv => kv.2.URL.isSome) with
      | some kv => { key := kv.1, d := kv.2, url := kv.2.URL.getD "", ok := true }
      | none => SelectResult.notFound

/-! ### Vocabulary of the specification for derivative selection -/

/-- The derivative has a URL and both dimensions. -/
def hasUrlAndDims (d : Derivative) : Prop :=
  d.URL.isSome = true ∧ d.Width.isSome = true ∧ d.Height.isSome = true

instance (d : Derivative) : Decidable (hasUrlAndDims d) := by
  unfold hasUrlAndDims; infer_instance

/-- Pixel area `width * height` of a derivative, `0` when a dimension is unknown. -/
def area (d : Derivative) : Nat :=
  match d.Width, d.Height with
  | some w, some h => w * h
  | _, _ => 0

/-- The derivative `thumbnail` of the test `prefer original with dimensions`
(utils_test.go). -/
def testThumbnail : Derivative :=
  { Checksum := "thumb", FileSize := none, Width := some 1920, Height := some 1080,
    URL := some "https://example.com/1.jpg" }

/-- The derivative `original` of the test `prefer original with dimensions`
(utils_test.go). -/
def testOriginal : Derivative :=
  { Checksum := "orig", FileSize := none, Width := some 3840, Height := some 2160,
    URL := some "https://example.com/2.jpg" }

/-- The derivative `1` of the test `prefer key 3 or 4` (utils_test.go). -/
def testKey1 : Derivative :=
  { Checksum := "1", FileSize := none, Width := some 1920, Height := some 1080,
    URL := some "https://example.com/1.jpg" }

/-- The derivative `4` of the test `prefer key 3 or 4` (utils_test.go). -/
def testKey4 : Derivative :=
  { Checksum := "4", FileSize := none, Width := some 3840, Height := some 2160,
    URL := some "https://example.com/2.jpg" }

/-- A non-original derivative larger than the original next to it. -/
def largePreview : Derivative :=
  { Checksum := "prev", FileSize := none, Width := some 3840, Height := some 2160,
    URL := some "https://example.com/preview.jpg" }

/-- An original derivative smaller than the preview next to it. -/
def smallOriginal : Derivative :=
  { Checksum := "orig", FileSize := none, Width := some 1920, Height := some 1080,
    URL := some "https://example.com/original.jpg" }

/-! ### Vocabulary of the specification for enrichment -/

/-- Effect of the first loop on one derivative: an unset URL becomes the URL the map
has for the checksum, if there is one. -/
def fillChecksum (allURLs : List (String × String)) (d : Derivative) : Derivative :=
  if d.URL = none then
    match mapGet allURLs d.Checksum with
    | some u => { d with URL := some u }
    | none => d
  else d

/-- Effect of the second loop on one derivative: an unset URL becomes `u`. -/
def fillGuid (u : String) (d : Derivative) : Derivative :=
  if d.URL = none then { d with URL := some u } else d

/-- Effect of both loops on one derivative of a photo with id `guid`. -/
def enrichDerivative (allURLs : List (String × String)) (guid : String) (d : Derivative) :
    Derivative :=
  match mapGet allURLs guid with
  | some u => fillGuid u (fillChecksum allURLs d)
  | none => fillChecksum allURLs d

/-- Every photo of the slice has a derivative map with pairwise distinct keys. -/
def mapsWellFormed (photos : List Image) : Prop :=
  ∀ p ∈ photos, (mapKeys p.Derivatives).Nodup

/-- What enrichment leaves alone in a derivative: everything but an unset URL. -/
def derivativeFrame (d d' : Derivative) : Prop :=
  d'.Checksum = d.Checksum ∧ d'.FileSize = d.FileSize ∧ d'.Width = d.Width ∧
    d'.Height = d.Height ∧ ∀ u, d.URL = some u → d'.URL = some u

/-- What enrichment leaves alone in a photo: its fields, its derivative keys in their
order, and the frame of each derivative. -/
def photoFrame (p p' : Image) : Prop :=
  p'.PhotoGUID = p.PhotoGUID ∧ p'.Caption = p.Caption ∧ p'.DateCreated = p.DateCreated ∧
    p'.BatchDateCreated = p.BatchDateCreated ∧ p'.Width = p.Width ∧ p'.Height = p.Height ∧
    List.Forall₂ (fun kd kd' => kd'.1 = kd.1 ∧ derivativeFrame kd.2 kd'.2)
      p.Derivatives p'.Derivatives

/-- The photo of the test `checksum takes priority over GUID` (enrich_test.go). -/
def testPhotoPriority : Image :=
  { PhotoGUID := "photo1",
    Derivatives := [("original",
      { Checksum := "checksum1", FileSize := none, Width := none, Height := none,
        URL := none })],
    Caption := none, DateCreated := none, BatchDateCreated := none,
    Width := none, Height := none }

/-- The URL map of the test `checksum takes priority over GUID` (enrich_test.go). -/
def testURLsPriority : List (String × String) :=
  [("checksum1", "https://example.com/checksum.jpg"),
   ("photo1", "https://example.com/guid.jpg")]

/-- A photo with a URL-bearing derivative and a URL-less one whose checksum is unknown. -/
def testPhotoMixed : Image :=
  { PhotoGUID := "photo1",
    Derivatives := [
      ("thumb",
        { Checksum := "c0", FileSize := some 10, Width := some 2, Height := some 3,
          URL := some "https://example.com/old.jpg" }),
      ("original",
        { Checksum := "unknown", FileSize := none, Width := none, Height := none,
          URL := none })],
    Caption := some "a", DateCreated := none, BatchDateCreated := none,
    Width := none, Height := none }

/-! ## api.go: retry configuration and asset URLs -/

/-- Go `BackoffConstant` (the `iota` constants of `BackoffStrategy`, an `int`). -/
def BackoffConstant : Int := 0

/-- Go `BackoffLinear`. -/
def BackoffLinear : Int := 1

/-- Go `BackoffExponential`. -/
def BackoffExponential : Int := 2

/-- Go `BackoffExponentialWithJitter`. -/
def BackoffExponentialWithJitter : Int := 3

/-- Go `time.Millisecond`, in nanoseconds. -/
def Millisecond : Int := 1000000

/-- Go `time.Second`, in nanoseconds. -/
def Second : Int := 1000000000

/-- Go `RetryConfig`.  A `time.Duration` is a count of nanoseconds held in an `int64`. -/
structure RetryConfig where
  MaxRetries : Int
  BaseDelay : Int
  Strategy : Int
  MaxDelay : Int
  RetryableStatusCodes : List Int
  PermanentFailureStatusCodes : List Int
  deriving DecidableEq, Repr

/-- Go `DefaultRetryConfig`. -/
def DefaultRetryConfig : RetryConfig :=
  { MaxRetries := 3,
    BaseDelay := 500 * Millisecond,
    Strategy := BackoffExponentialWithJitter,
    MaxDelay := 30 * Second,
    RetryableStatusCodes := [408, 429, 500, 502, 503, 504],
    PermanentFailureStatusCodes := [400, 401, 403, 404] }

/-- Go `shouldRetryStatus`: the two loops return at the first code that matches. -/
def shouldRetryStatus (cfg : RetryConfig) (code : Int) : Bool :=
  if cfg.PermanentFailureStatusCodes.any (fun s => code == s) then false
  else if cfg.RetryableStatusCodes.any (fun s => code == s) then true
  else decide (code ≥ 500 ∧ code ≤ 599)

/-- The value an `int64` holds after an arithmetic result `x` (two's complement wrap). -/
def wrapInt64 (x : Int) : Int :=
  (x + 2 ^ 63) % 2 ^ 64 - 2 ^ 63

/-- Go `min` of api.go. -/
def goMin (a b : Int) : Int :=
  if a < b then a else b

/-- Go `nextDelay`.  `attempt` is the loop counter of `GetAssetURLs`, never negative;
`int64N` is `rand.Int64N` at this call. -/
def nextDelay (int64N : Int → Int) (cfg : RetryConfig) (attempt : Nat) : Int :=
  if cfg.Strategy = BackoffConstant then cfg.BaseDelay
  else if cfg.Strategy = BackoffLinear then
    let d := wrapInt64 ((attempt : Int) * cfg.BaseDelay)
    if d > cfg.MaxDelay then cfg.MaxDelay else d
  else if cfg.Strategy = BackoffExponential then
    let d := wrapInt64 (cfg.BaseDelay * 2 ^ (goMin attempt 30).toNat)
    if d > cfg.MaxDelay then cfg.MaxDelay else d
  else if cfg.Strategy = BackoffExponentialWithJitter then
    let max0 := wrapInt64 (cfg.BaseDelay * 2 ^ (goMin attempt 30).toNat)
    let max := if max0 > cfg.MaxDelay then cfg.MaxDelay else max0
    if max ≤ 0 then 0
    else wrapInt64 (int64N (Int.tdiv max 1000000 + 1) * Millisecond)
  else cfg.BaseDelay

/-- One entry of the `items` object of a `webasseturls` response; a missing JSON field
leaves the empty string. -/
structure AssetItem where
  URLLocation : String
  URLPath : String
  deriving DecidableEq, Repr

/-- What `client.Do` and the decoding of the body give for one request: a transport
error, or a response with its status and the decoded `items` (`none` when the body does
not decode). -/
inductive Outcome where
  | transportError
  | response (status : Int) (items : Option (List (String × AssetItem)))
  deriving DecidableEq, Repr

/-- The errors `GetAssetURLs` returns. -/
inductive AssetError where
  | newRequest
  | network
  | status (code : Int)
  | decode
  deriving DecidableEq, Repr

/-- The result of a call of `GetAssetURLs` together with what it did: the number of
requests issued and the delays slept, in order. -/
structure AssetRun where
  result : Except AssetError (List (String × String))
  requests : Nat
  sleeps : List Int
  deriving DecidableEq, Repr

/-- The loop at the end of `GetAssetURLs` that fills `res` from `parsed.Items`, visited
in the order of the list. -/
def buildAssetURLs (items : List (String × AssetItem)) : List (String × String) :=
  items.foldl
    (fun res kv =>
      if kv.2.URLLocation = "" ∨ kv.2.URLPath = "" then res
      else mapSet res kv.1 ("https://" ++ kv.2.URLLocation ++ kv.2.URLPath))
    []

/-- The `for` loop of `GetAssetURLs` from the state `attempt`, `sleeps`.  `urlOk` tells
whether `http.NewRequest` accepts the URL, `rand i` is the random source at attempt `i`,
`outcomes i` is what request number `i` gives.  `fuel` bounds the iterations; `none`
means the bound was reached. -/
def assetLoop (c : RetryConfig) (urlOk : Bool) (rand : Nat → Int → Int)
    (outcomes : Nat → Outcome) : Nat → Nat → List Int → Option AssetRun
  | 0, _, _ => none
  | fuel + 1, attempt, sleeps =>
    if urlOk = false then
      some { result := .error .newRequest, requests := attempt, sleeps := sleeps }
    else
      match outcomes attempt with
      | .transportError =>
        if (attempt : Int) ≥ c.MaxRetries then
          some { result := .error .network, requests := attempt + 1, sleeps := sleeps }
        else
          assetLoop c urlOk rand outcomes fuel (attempt + 1)
            (sleeps ++ [nextDelay (rand attempt) c attempt])
      | .response status items =>
        if status = 400 then
          some { result := .ok [], requests := attempt + 1, sleeps := sleeps }
        else if status < 200 ∨ status ≥ 300 then
          if shouldRetryStatus c status = true ∧ (attempt : Int) < c.MaxRetries then
            assetLoop c urlOk rand outcomes fuel (attempt + 1)
              (sleeps ++ [nextDelay (rand attempt) c attempt])
          else
            some { result := .error (.status status), requests := attempt + 1,
                   sleeps := sleeps }
        else
          match items with
          | none =>
            some { result := .error .decode, requests := attempt + 1, sleeps := sleeps }
          | some its =>
            some { result := .ok (buildAssetURLs its), requests := attempt + 1,
                   sleeps := sleeps }

/-- Go `GetAssetURLs`.  The loop runs with `MaxRetries + 1` iterations allowed, which
it never exceeds (`GetAssetURLs_terminates`). -/
def GetAssetURLs (cfg : Option RetryConfig) (urlOk : Bool) (rand : Nat → Int → Int)
    (outcomes : Nat → Outcome) (photoGUIDs : List String) : Option AssetRun :=
  let c := match cfg with
    | none => DefaultRetryConfig
    | some c => c
  if photoGUIDs.length = 0 then
    some { result := .ok [], requests := 0, sleeps := [] }
  else
    assetLoop c urlOk rand outcomes (c.MaxRetries.toNat + 1) 0 []

/-! ### Vocabulary of the specification for retries -/

/-- The outcome is a transport failure or a status for which `shouldRetryStatus` holds
and that is not 400. -/
def retryableOutcome (c : RetryConfig) (o : Outcome) : Prop :=
  match o with
  | .transportError => True
  | .response status _ => shouldRetryStatus c status = true ∧ status ≠ 400

instance (c : RetryConfig) (o : Outcome) : Decidable (retryableOutcome c o) := by
  cases o <;> unfold retryableOutcome <;> infer_instance

/-- The outcome is a transport failure or a non-2xx status for which
`shouldRetryStatus` holds. -/
def retryableNon2xx (c : RetryConfig) (o : Outcome) : Prop :=
  match o with
  | .transportError => True
  | .response status _ => shouldRetryStatus c status = true ∧ (status < 200 ∨ status ≥ 300)

instance (c : RetryConfig) (o : Outcome) : Decidable (retryableNon2xx c o) := by
  cases o <;> unfold retryableNon2xx <;> infer_instance

/-- The delays slept before attempt `k`: `nextDelay` at the attempts `0 .. k-1`. -/
def delaysBefore (c : RetryConfig) (rand : Nat → Int → Int) (k : Nat) : List Int :=
  (List.range k).map (fun i => nextDelay (rand i) c i)

/-- A random source: `rand.Int64N n` lies in `[0, n)` for positive `n`. -/
def validInt64N (int64N : Int → Int) : Prop :=
  ∀ n, 0 < n → 0 ≤ int64N n ∧ int64N n < n

/-- The outcomes `503, 503, 200` with an empty `items` object, then transport errors. -/
def outcomes503503200 (i : Nat) : Outcome :=
  if i = 0 then .response 503 none
  else if i = 1 then .response 503 none
  else if i = 2 then .response 200 (some [])
  else .transportError

/-- The loop of `GetAssetURLs` sleeps and goes on after outcome `o` at attempt
`attempt`: a transport error with retries left, or a status other than 400 outside
2xx that `shouldRetryStatus` accepts, with retries left. -/
def retries (c : RetryConfig) (o : Outcome) (attempt : Nat) : Prop :=
  match o with
  | .transportError => (attempt : Int) < c.MaxRetries
  | .response status _ =>
    status ≠ 400 ∧ (status < 200 ∨ status ≥ 300) ∧ shouldRetryStatus c status = true ∧
      (attempt : Int) < c.MaxRetries

instance (c : RetryConfig) (o : Outcome) (attempt : Nat) :
    Decidable (retries c o attempt) := by
  cases o <;> unfold retries <;> infer_instance

/-- The URL `GetAssetURLs` builds for an item. -/
def assetURL (it : AssetItem) : String :=
  "https://" ++ it.URLLocation ++ it.URLPath

/-- Both fragments of the item are non-empty. -/
def hasBothFragments (it : AssetItem) : Prop :=
  it.URLLocation ≠ "" ∧ it.URLPath ≠ ""

instance (it : AssetItem) : Decidable (hasBothFragments it) := by
  unfold hasBothFragments; infer_instance

/-- A configuration that lists 400 as retryable and nothing as permanent. -/
def config400Retryable : RetryConfig :=
  { DefaultRetryConfig with RetryableStatusCodes := [400], PermanentFailureStatusCodes := [] }

/-- A configuration that lists 200 as retryable. -/
def config200Retryable : RetryConfig :=
  { DefaultRetryConfig with RetryableStatusCodes := [200] }

/-- The outcomes `503` then `400`, then transport errors. -/
def outcomes503then400 (i : Nat) : Outcome :=
  if i = 0 then .response 503 none
  else if i = 1 then .response 400 none
  else .transportError

/-- An `items` object with a complete entry, one without path and one without
location. -/
def testItems : List (String × AssetItem) :=
  [("g1", { URLLocation := "cvws.icloud-content.com", URLPath := "/B/abc" }),
   ("g2", { URLLocation := "cvws.icloud-content.com", URLPath := "" }),
   ("g3", { URLLocation := "", URLPath := "/B/def" })]

/-- The outcomes `500` then `200` with `testItems`, then transport errors. -/
def outcomes500then200 (i : Nat) : Outcome :=
  if i = 0 then .response 500 none
  else if i = 1 then .response 200 (some testItems)
  else .transportError

/-- A random source that always returns the largest value allowed. -/
def randMax (_ : Nat) (n : Int) : Int :=
  n - 1

/-- Every request gets a 200 response with an empty `items` object. -/
def outcomesAll200 (_ : Nat) : Outcome :=
  .response 200 (some [])

/-- Every request gets a 400 response. -/
def outcomesAll400 (_ : Nat) : Outcome :=
  .response 400 none

/-- Every request gets a 503 response. -/
def outcomesAll503 (_ : Nat) : Outcome :=
  .response 503 none

/-- The specification's bound `min(baseDelay * 2^min(n,30), maxDelay)`, over the
integers. -/
def delayBound (cfg : RetryConfig) (n : Nat) : Int :=
  min (cfg.BaseDelay * 2 ^ (min n 30)) cfg.MaxDelay

/-- The exponential strategy with a base delay of ten seconds and a cap of thirty. -/
def configTenSeconds : RetryConfig :=
  { DefaultRetryConfig with Strategy := BackoffExponential, BaseDelay := 10 * Second }

/-- The exponential strategy of `configTenSeconds` replaced by the linear one. -/
def configTenSecondsLinear : RetryConfig :=
  { DefaultRetryConfig with Strategy := BackoffLinear, BaseDelay := 10 * Second }

/-- The exponential strategy of `configTenSeconds` replaced by the one with jitter. -/
def configTenSecondsJitter : RetryConfig :=
  { DefaultRetryConfig with BaseDelay := 10 * Second }

/-! ## utils.go: DetectMIMEType -/

/-- Go `ExtensionFromMIME`. -/
def ExtensionFromMIME (mt : String) : String :=
  if mt = "image/jpeg" then ".jpg"
  else if mt = "image/png" then ".png"
  else if mt = "image/heic" then ".heic"
  else if mt = "image/heif" then ".heif"
  else if mt = "video/mp4" then ".mp4"
  else if mt = "video/quicktime" then ".mov"
  else if mt = "image/gif" then ".gif"
  else ".jpg"

/-- Go `filepath.Ext` read from the end of the path: `rev` is what is left of the
reversed path, `acc` the characters already passed. -/
def filepathExtRev : List Char → List Char → List Char
  | [], _ => []
  | c :: rest, acc =>
    if c = '/' then []
    else if c = '.' then '.' :: acc
    else filepathExtRev rest (c :: acc)

/-- Go `filepath.Ext` (slash-separated paths). -/
def filepathExt (path : String) : String :=
  String.mk (filepathExtRev path.data.reverse [])

/-- Go `DetectMIMEType`.  `b` holds the bytes as numbers; `detectContentType` is
`http.DetectContentType` and `typeByExtension` is `mime.TypeByExtension` of the Go
standard library. -/
def DetectMIMEType (detectContentType : List Nat → String)
    (typeByExtension : String → String) (tbl : Char → Char)
    (b : List Nat) (filename : String) : String :=
  if b.length ≥ 3 ∧ b[0]? = some 0xFF ∧ b[1]? = some 0xD8 ∧ b[2]? = some 0xFF then
    "image/jpeg"
  else if b.length ≥ 8 ∧ b[0]? = some 0x89 ∧ b[1]? = some 0x50 ∧ b[2]? = some 0x4E ∧
      b[3]? = some 0x47 ∧ b[4]? = some 0x0D ∧ b[5]? = some 0x0A ∧ b[6]? = some 0x1A ∧
      b[7]? = some 0x0A then
    "image/png"
  else if b.length > 11 ∧ b[4]? = some 0x66 ∧ b[5]? = some 0x74 ∧ b[6]? = some 0x79 ∧
      b[7]? = some 0x70 then
    (if b[8]? = some 0x71 ∧ b[9]? = some 0x74 then "video/quicktime" else "video/mp4")
  else if b.length ≥ 6 ∧ b[0]? = some 0x47 ∧ b[1]? = some 0x49 ∧ b[2]? = some 0x46 ∧
      b[3]? = some 0x38 ∧ (b[4]? = some 0x37 ∨ b[4]? = some 0x39) ∧ b[5]? = some 0x61 then
    "image/gif"
  else if b.length > 12 ∧ b[4]? = some 0x66 ∧ b[5]? = some 0x74 ∧ b[6]? = some 0x79 ∧
      b[7]? = some 0x70 ∧ b[8]? = some 0x68 ∧ b[9]? = some 0x65 ∧ b[10]? = some 0x69 ∧
      (b[11]? = some 0x63 ∨ b[11]? = some 0x66) then
    (if b[11]? = some 0x63 then "image/heic" else "image/heif")
  else
    let mt := detectContentType b
    let byName : Option String :=
      if mt = "application/octet-stream" ∧ filename ≠ "" then
        let ext := String.mk (toLower tbl (filepathExt filename))
        if ext ≠ "" then
          (if typeByExtension ext ≠ "" then some (typeByExtension ext) else none)
        else none
      else none
    match byName with
    | some t => t
    | none => if mt = "" then "image/jpeg" else mt

/-- Go `GetExtensionForContent`. -/
def GetExtensionForContent (detectContentType : List Nat → String)
    (typeByExtension : String → String) (tbl : Char → Char)
    (b : List Nat) (filename : String) : String :=
  ExtensionFromMIME (DetectMIMEType detectContentType typeByExtension tbl b filename)

/-! ### More fixtures for derivative selection -/

/-- A derivative with a URL whose width and height are both zero. -/
def zeroAreaDerivative : Derivative :=
  { Checksum := "z", FileSize := none, Width := some 0, Height := some 0,
    URL := some "https://example.com/zero.jpg" }

/-- A derivative with a URL and no dimensions. -/
def noDimsDerivative : Derivative :=
  { Checksum := "n", FileSize := none, Width := none, Height := none,
    URL := some "https://example.com/nodims.jpg" }

/-- State of the main loop of `SelectBestDerivative` after visiting `vis`, when no
original-like key has been seen: `maxPixels` bounds the areas seen, and `best` is either
unset with `maxPixels = 0` or a visited URL-bearing derivative with both dimensions
whose area is `maxPixels`. -/
def maxAreaInv (vis : List (String × Derivative)) (st : SelectState) : Prop :=
  st.haveOrig = false ∧
    (∀ kd ∈ vis, hasUrlAndDims kd.2 → area kd.2 ≤ st.maxPixels) ∧
    ((st.best = none ∧ st.maxPixels = 0) ∨
      (∃ b, st.best = some b ∧ (st.bestKey, b) ∈ vis ∧ hasUrlAndDims b ∧
        area b = st.maxPixels))

/-! ## download.go -/

/-- The characters the `switch` of `repl` in `sanitize` replaces. -/
def forbiddenChars : List Char :=
  ['<', '>', ':', '"', '/', '\\', '|', '?', '*', '!', '@', '#', '$', '%', '^', '&', '\'',
   ';', '=', '+', ',', '`', '~']

/-- Go `utf8.ValidRune` on a code point. -/
def utf8ValidRune (n : Nat) : Bool :=
  n < 0xD800 || (0xDFFF < n && n ≤ 0x10FFFF)

/-- The closure `repl` of Go `sanitize`. -/
def repl (r : Char) : Char :=
  if r ∈ forbiddenChars then '_'
  else if r.toNat < 32 ∨ r.toNat = 127 ∨ utf8ValidRune r.toNat = false then '_'
  else r

/-- The test of both loops of Go `trimDots`. -/
def isDotOrSpace (c : Char) : Bool :=
  c == '.' || c == ' '

/-- Go `trimDots`: leading, then trailing dots and spaces removed.  The source works on
bytes; in UTF-8 the bytes `.` and space only occur as these characters. -/
def trimDots (s : List Char) : List Char :=
  ((s.dropWhile isDotOrSpace).reverse.dropWhile isDotOrSpace).reverse

/-- Go `sanitize`. -/
def sanitize (s : String) : String :=
  let out := s.data.map repl
  let out := if out.length > 200 then out.take 195 ++ "_truncated".data else out
  String.mk (trimDots out)

/-- Go `fmt.Sprintf("%d", x)` for a signed integer. -/
def fmtD (x : Int) : String :=
  if x < 0 then "-" ++ Nat.repr x.natAbs else Nat.repr x.toNat

/-- The test `p != nil && *p != ""` of the `switch` of `DownloadPhoto`, giving the
string when it holds. -/
def nonEmptyString (p : Option String) : Option String :=
  match p with
  | some s => if s ≠ "" then some s else none
  | none => none

/-- The `switch` of `DownloadPhoto` that composes `base`, the file name without
extension, from the photo, the optional index and the optional custom file name.
`*index+1` is an `int` addition. -/
def downloadBaseName (photo : Image) (index : Option Int) (customFilename : Option String) :
    String :=
  match nonEmptyString customFilename with
  | some f => photo.PhotoGUID ++ "_" ++ sanitize f
  | none =>
    match nonEmptyString photo.Caption with
    | some c =>
      match index with
      | some i => fmtD (wrapInt64 (i + 1)) ++ "_" ++ photo.PhotoGUID ++ "_" ++ sanitize c
      | none => photo.PhotoGUID ++ "_" ++ sanitize c
    | none =>
      match index with
      | some i => fmtD (wrapInt64 (i + 1)) ++ "_" ++ photo.PhotoGUID
      | none => photo.PhotoGUID

/-! ### Vocabulary of the specification for file names -/

/-- The character is none of the forbidden characters and no control character. -/
def safeChar (c : Char) : Prop :=
  c ∉ forbiddenChars ∧ ¬ c.toNat < 32 ∧ c.toNat ≠ 127

instance (c : Char) : Decidable (safeChar c) := by
  unfold safeChar; infer_instance

/-- The string contains only safe characters and neither begins nor ends with a dot or
a space. -/
def cleanName (s : List Char) : Prop :=
  (∀ c ∈ s, safeChar c) ∧ s.head? ≠ some '.' ∧ s.head? ≠ some ' ' ∧
    s.getLast? ≠ some '.' ∧ s.getLast? ≠ some ' '

/-- The index prefix of the naming contract: `{index+1}_`, nothing without index. -/
def indexPrefix (index : Option Int) : String :=
  match index with
  | some i => fmtD (i + 1) ++ "_"
  | none => ""

/-- The caption suffix of the naming contract: `_{sanitized caption}`, nothing when the
caption is absent or empty. -/
def captionSuffix (caption : Option String) : String :=
  match caption with
  | some c => if c = "" then "" else "_" ++ sanitize c
  | none => ""

/-- A photo with a caption, for the file name examples. -/
def testPhotoCaption : Image :=
  { PhotoGUID := "G1", Derivatives := [], Caption := some "Sunset: beach",
    DateCreated := none, BatchDateCreated := none, Width := none, Height := none }

/-- The input `é` repeated 201 times. -/
def longAccented : String :=
  String.mk (List.replicate 201 'é')

/-! ### Vocabulary of the specification for content types -/

/-- The table of the specification from recognized types to extensions. -/
def extensionTable : List (String × String) :=
  [("image/jpeg", ".jpg"), ("image/png", ".png"), ("image/heic", ".heic"),
   ("image/heif", ".heif"), ("video/mp4", ".mp4"), ("video/quicktime", ".mov"),
   ("image/gif", ".gif")]

/-- The first bytes of a HEIC file: box size, `ftyp`, `heic`, and two more bytes. -/
def heicBytes : List Nat :=
  [0x00, 0x00, 0x00, 0x18, 0x66, 0x74, 0x79, 0x70, 0x68, 0x65, 0x69, 0x63, 0x00, 0x00]

/-- The first bytes of a HEIF file: box size, `ftyp`, `heif`, and two more bytes. -/
def heifBytes : List Nat :=
  [0x00, 0x00, 0x00, 0x18, 0x66, 0x74, 0x79, 0x70, 0x68, 0x65, 0x69, 0x66, 0x00, 0x00]

/-- The URL of a derivative after enrichment, as the doc comment of
`EnrichPhotosWithURLs` gives it: the URL it had, else the URL of its checksum, else the
URL of the photo's GUID, else none. -/
def specEnrichedURL (allURLs : List (String × String)) (guid : String) (d : Derivative) :
    Option String :=
  match d.URL with
  | some u => some u
  | none =>
    match mapGet allURLs d.Checksum with
    | some u => some u
    | none => mapGet allURLs guid

/-! ## models.go: number-or-string decoding -/

/-- The JSON value whose text `UnmarshalJSON` receives from the decoder: `null`, a
number with its literal text, a string with its decoded content, or anything else (a
boolean, an array, an object, or bytes that are not JSON). -/
inductive JsonValue where
  | null
  | number (lit : String)
  | str (s : String)
  | other
  deriving DecidableEq, Repr

/-- Go `strconv.ParseUint(s, 10, bitSize)`: `none` is an error (empty input, a
character that is not a decimal digit, or a value that needs more than `bitSize`
bits). -/
def parseUint (s : String) (bitSize : Nat) : Option Nat :=
  if s.data = [] then none
  else if s.data.all Char.isDigit then
    let v := s.data.foldl (fun acc c => acc * 10 + (c.toNat - 48)) 0
    if v < 2 ^ bitSize then some v else none
  else none

/-- Go `json.Unmarshal(b, &n)` for a zero `n uint64`: `none` is an error.  A number is
stored through `strconv.ParseUint` on its literal; `null` leaves `n` as it is. -/
def jsonUnmarshalUint64 (b : JsonValue) : Option Nat :=
  match b with
  | .null => some 0
  | .number lit => parseUint lit 64
  | _ => none

/-- Go `json.Unmarshal(b, &s)` for an empty `s string`: `none` is an error. -/
def jsonUnmarshalString (b : JsonValue) : Option String :=
  match b with
  | .null => some ""
  | .str s => some s
  | _ => none

/-- Go `(*Uint64OrString).UnmarshalJSON`: `u` is the value before the call; the result
is the returned error, or the value after the call when the error is nil (it always
is). -/
def Uint64OrString.UnmarshalJSON (u : Nat) (b : JsonValue) : Except String Nat :=
  if b = .null then .ok u
  else
    match jsonUnmarshalUint64 b with
    | some n => .ok n
    | none =>
      match jsonUnmarshalString b with
      | some s =>
        if s = "" then .ok u
        else
          match parseUint s 64 with
          | none => .ok u
          | some v => .ok v
      | none => .ok u

/-- Go `(*Uint32OrString).UnmarshalJSON`: as for 64 bits, with the number converted by
`uint32(n)` and the string parsed with bit size 32. -/
def Uint32OrString.UnmarshalJSON (u : Nat) (b : JsonValue) : Except String Nat :=
  if b = .null then .ok u
  else
    match jsonUnmarshalUint64 b with
    | some n => .ok (n % 2 ^ 32)
    | none =>
      match jsonUnmarshalString b with
      | some s =>
        if s = "" then .ok u
        else
          match parseUint s 32 with
          | none => .ok u
          | some v => .ok (v % 2 ^ 32)
      | none => .ok u

/-- The string is a decimal numeral: not empty and made of decimal digits. -/
def isNumeric (s : String) : Prop :=
  s.data ≠ [] ∧ s.data.all Char.isDigit = true

instance (s : String) : Decidable (isNumeric s) := by
  unfold isNumeric; infer_instance

/-! ## api.go: getAPIResponse -/

/-- Go `Metadata`; `Locations` is the raw JSON text. -/
structure Metadata where
  StreamName : String
  UserFirstName : String
  UserLastName : String
  StreamCTag : String
  ItemsReturned : Nat
  Locations : String
  deriving DecidableEq, Repr

/-- Go `ApiResponse`. -/
structure ApiResponse where
  Photos : List Image
  PhotoGuids : List String
  StreamName : Option String
  UserFirstName : Option String
  UserLastName : Option String
  StreamCTag : Option String
  ItemsReturned : Option Nat
  Locations : Option String
  deriving DecidableEq, Repr

/-- Go `ICloudResponse`. -/
structure ICloudResponse where
  Metadata : Metadata
  Photos : List Image
  deriving DecidableEq, Repr

/-- The errors `getAPIResponse` returns. -/
inductive APIError where
  | newRequest
  | transport
  | status (code : Int)
  | decode
  | missingStreamName
  deriving DecidableEq, Repr

/-- What the `webstream` request gives: a transport error, or a response with its status
and what decoding leaves in `api` (`none` when the body is not JSON; an error of the
lenient `json.Unmarshal` into `api` is only logged). -/
inductive WebstreamOutcome where
  | transportError
  | response (status : Int) (decoded : Option ApiResponse)
  deriving DecidableEq, Repr

/-- Go `derefOr`. -/
def derefOr (p : Option String) (d : String) : String :=
  match p with
  | none => d
  | some s => s

/-- Go `getAPIResponse`; `urlOk` tells whether `http.NewRequest` accepts the URL. -/
def getAPIResponse (urlOk : Bool) (o : WebstreamOutcome) :
    Except APIError (List Image × Metadata) :=
  if urlOk = false then .error .newRequest
  else
    match o with
    | .transportError => .error .transport
    | .response status decoded =>
      if status < 200 ∨ status ≥ 300 then .error (.status status)
      else
        match decoded with
        | none => .error .decode
        | some api =>
          match api.StreamName with
          | none => .error .missingStreamName
          | some name =>
            if name = "" then .error .missingStreamName
            else
              let items := match api.ItemsReturned with
                | some n => n
                | none => 0
              let locs := match api.Locations with
                | some l => l
                | none => "null"
              .ok (api.Photos,
                { StreamName := name,
                  UserFirstName := derefOr api.UserFirstName "",
                  UserLastName := derefOr api.UserLastName "",
                  StreamCTag := derefOr api.StreamCTag "",
                  ItemsReturned := items,
                  Locations := locs })

/-! ## redirect.go -/

/-- A value of the `map[string]any` the 330 body is decoded into: a string, or a value
of another type. -/
inductive JsonAny where
  | str (s : String)
  | nonString
  deriving DecidableEq, Repr

/-- What the probe request gives: a transport error, or a response with its status and
its body decoded as a JSON object (`none` when decoding fails). -/
inductive ProbeOutcome where
  | transportError
  | response (status : Int) (body : Option (List (String × JsonAny)))
  deriving DecidableEq, Repr

/-- The errors `GetRedirectedBaseURL` returns. -/
inductive RedirectError where
  | newRequest
  | transport
  | decode
  deriving DecidableEq, Repr

/-- Go `GetRedirectedBaseURL`; `urlOk` tells whether `http.NewRequest` accepts the
URL.  The body is decoded only for status 330. -/
def GetRedirectedBaseURL (urlOk : Bool) (o : ProbeOutcome) (baseURL token : String) :
    Except RedirectError String :=
  if urlOk = false then .error .newRequest
  else
    match o with
    | .transportError => .error .transport
    | .response status body =>
      if status = 330 then
        match body with
        | none => .error .decode
        | some m =>
          let host := match mapGet m "X-Apple-MMe-Host" with
            | some (.str h) => h
            | _ => ""
          if host ≠ "" then .ok ("https://" ++ host ++ "/" ++ token ++ "/sharedstreams/")
          else .ok baseURL
      else .ok baseURL

/-! ## icloud.go -/

/-- The errors `GetICloudPhotosWithClient` passes on. -/
inductive ICloudError where
  | token (e : TokenError)
  | redirect (e : RedirectError)
  | api (e : APIError)
  deriving DecidableEq, Repr

/-- Go `GetICloudPhotosWithClient`.  `newRequestOk url` tells whether `http.NewRequest`
accepts `url`; `probe`, `webstream` and `assets` are what the three kinds of request
give.  An error of `GetAssetURLs` leaves `allURLs` nil, the empty map. -/
def GetICloudPhotosWithClient (newRequestOk : String → Bool) (probe : ProbeOutcome)
    (webstream : WebstreamOutcome) (rand : Nat → Int → Int) (assets : Nat → Outcome)
    (token : String) : Except ICloudError ICloudResponse :=
  match GetBaseURL token with
  | .error e => .error (.token e)
  | .ok base =>
    match GetRedirectedBaseURL (newRequestOk (base ++ "webstream")) probe base token with
    | .error e => .error (.redirect e)
    | .ok redirected =>
      match getAPIResponse (newRequestOk (redirected ++ "webstream")) webstream with
      | .error e => .error (.api e)
      | .ok (photos, md) =>
        let guids := photos.map (fun p => p.PhotoGUID)
        let allURLs : List (String × String) :=
          match GetAssetURLs none (newRequestOk (redirected ++ "webasseturls")) rand assets
              guids with
          | some run =>
            (match run.result with
             | .ok m => m
             | .error _ => [])
          | none => []
        .ok { Metadata := md, Photos := EnrichPhotosWithURLs photos allURLs }

/-- A decoded metadata response with only the album name and one photo. -/
def testApiResponse : ApiResponse :=
  { Photos := [testPhotoPriority], PhotoGuids := ["photo1"], StreamName := some "Holiday",
    UserFirstName := none, UserLastName := none, StreamCTag := none,
    ItemsReturned := none, Locations := none }

/-- A 330 body naming a replacement host. -/
def testRedirectBody : List (String × JsonAny) :=
  [("X-Apple-MMe-Host", .str "p42-sharedstreams.icloud.com")]

/-! ## enrich.go with the derivative maps held by reference -/

/-- A photo as the slice holds it in Go: the fields of `Image`, with `Derivatives` a
reference to a map, here the address of the map on the heap.  Two photos with the same
address share one map. -/
structure ImageRef where
  PhotoGUID : String
  Derivatives : Nat
  Caption : Option String
  DateCreated : Option String
  BatchDateCreated : Option String
  Width : Option Nat
  Height : Option Nat
  deriving DecidableEq, Repr

/-- The two loops of `EnrichPhotosWithURLs` on the derivative map `m` of a photo with
id `guid`: the map after both loops. -/
def enrichDerivs (allURLs : List (String × String)) (guid : String)
    (m : List (String × Derivative)) : List (String × Derivative) :=
  let d1 := rangeUpdate m (checksumBody allURLs)
  match mapGet allURLs guid with
  | some u => rangeUpdate d1 (guidBody u)
  | none => d1

/-- One iteration of the outer loop of `EnrichPhotosWithURLs` on the heap: the map the
photo refers to is updated in place (`p.Derivatives[k] = d`), so every photo that
refers to this map sees the update. -/
def enrichPhotoRef (allURLs : List (String × String))
    (heap : Nat → List (String × Derivative)) (p : ImageRef) :
    Nat → List (String × Derivative) :=
  fun a => if a = p.Derivatives then enrichDerivs allURLs p.PhotoGUID (heap a) else heap a

/-- Go `EnrichPhotosWithURLs` with the derivative maps held by reference: `heap a` is
the map at address `a` before the call, the result is the heap after the call.  The
fields of the photos themselves are not written. -/
def EnrichPhotosWithURLsRef (photos : List ImageRef) (allURLs : List (String × String))
    (heap : Nat → List (String × Derivative)) : Nat → List (String × Derivative) :=
  photos.foldl (enrichPhotoRef allURLs) heap

/-- The photo of the value model that a photo with a map reference stands for. -/
def ImageRef.toImage (p : ImageRef) (heap : Nat → List (String × Derivative)) : Image :=
  { PhotoGUID := p.PhotoGUID, Derivatives := heap p.Derivatives, Caption := p.Caption,
    DateCreated := p.DateCreated, BatchDateCreated := p.BatchDateCreated,
    Width := p.Width, Height := p.Height }

/-- A derivative without URL whose checksum is `cx`. -/
def sharedDerivative : Derivative :=
  { Checksum := "cx", FileSize := none, Width := none, Height := none, URL := none }

/-- A heap with one map, at address 0, holding the derivative `x`. -/
def sharedHeap (a : Nat) : List (String × Derivative) :=
  if a = 0 then [("x", sharedDerivative)] else []

/-- The photo `a`, referring to the map at address 0. -/
def sharedPhotoA : ImageRef :=
  { PhotoGUID := "a", Derivatives := 0, Caption := none, DateCreated := none,
    BatchDateCreated := none, Width := none, Height := none }

/-- The photo `b`, referring to the same map at address 0. -/
def sharedPhotoB : ImageRef :=
  { PhotoGUID := "b", Derivatives := 0, Caption := none, DateCreated := none,
    BatchDateCreated := none, Width := none, Height := none }

/-- A URL map whose only key is the GUID of photo `b`. -/
def sharedURLs : List (String × String) :=
  [("b", "https://example.com/b.jpg")]

/-! ### Lemmas on tokens -/

theorem trimSpace_eq_nil_iff (l : List Char) :
    trimSpace l = [] ↔ ∀ c ∈ l, isSpace c = true := by
  unfold trimSpace
  rw [List.reverse_eq_nil_iff, List.dropWhile_eq_nil_iff]
  constructor
  · intro h
    rw [← List.dropWhile_eq_nil_iff]
    by_contra hne
    have hmem : (l.dropWhile isSpace).head hne ∈ (l.dropWhile isSpace).reverse :=
      List.mem_reverse.mpr (List.head_mem hne)
    have h1 := h _ hmem
    have h2 := List.head_dropWhile_not isSpace l hne
    simp [h1] at h2
  · intro h
    have : l.dropWhile isSpace = [] := List.dropWhile_eq_nil_iff.mpr h
    simp [this]

theorem char_eq_ofNat (c : Char) : c = Char.ofNat c.toNat := by
  simp

theorem alnum_mem_alphabet (c : Char) (h : isAsciiAlnum c) : c ∈ base62Alphabet := by
  rw [char_eq_ofNat c]
  unfold isAsciiAlnum at h
  generalize c.toNat = n at h
  rcases h with ⟨h1, h2⟩ | ⟨h1, h2⟩ | ⟨h1, h2⟩ <;> interval_cases n <;> decide

theorem charToBase62_alphabet :
    ∀ c ∈ base62Alphabet, charToBase62 c = .ok (specBase62Value c) ∧ specBase62Value c < 62 := by
  decide

theorem charToBase62_alnum (c : Char) (h : isAsciiAlnum c) :
    charToBase62 c = .ok (specBase62Value c) :=
  (charToBase62_alphabet c (alnum_mem_alphabet c h)).1

theorem charToBase62_not_alnum (c : Char) (h : ¬ isAsciiAlnum c) :
    charToBase62 c = .error .ErrInvalidBase62 := by
  unfold isAsciiAlnum at h
  unfold charToBase62
  have e0 : '0'.toNat = 48 := rfl
  have e9 : '9'.toNat = 57 := rfl
  have eA : 'A'.toNat = 65 := rfl
  have eZ : 'Z'.toNat = 90 := rfl
  have ea : 'a'.toNat = 97 := rfl
  have ez : 'z'.toNat = 122 := rfl
  rw [e0, e9, eA, eZ, ea, ez]
  push_neg at h
  obtain ⟨h1, h2, h3⟩ := h
  rw [if_neg (by intro hh; exact absurd hh.2 (by have := h1 hh.1; omega)),
    if_neg (by intro hh; exact absurd hh.2 (by have := h2 hh.1; omega)),
    if_neg (by intro hh; exact absurd hh.2 (by have := h3 hh.1; omega))]

theorem alnum_not_space (c : Char) (h : isAsciiAlnum c) : isSpace c = false := by
  unfold isAsciiAlnum at h
  unfold isSpace
  generalize c.toNat = n at h
  rcases h with ⟨h1, h2⟩ | ⟨h1, h2⟩ | ⟨h1, h2⟩ <;> interval_cases n <;> decide

theorem calculatePartition_whitespace (token : String) (h : whitespaceOnly token) :
    calculatePartition token = .error .ErrEmptyToken := by
  unfold calculatePartition
  rw [if_pos (Or.inr ((trimSpace_eq_nil_iff _).mpr h))]

theorem calculatePartition_cons (token : String) (c : Char) (rest : List Char)
    (hd : token.data = c :: rest) (h : ¬ whitespaceOnly token) :
    calculatePartition token =
      match charToBase62 c with
      | .error e => .error e
      | .ok v => .ok (1 + (v % 40)) := by
  unfold calculatePartition
  have h1 : ¬ (token.data = [] ∨ trimSpace token.data = []) := by
    rintro (h0 | h0)
    · rw [hd] at h0; exact List.cons_ne_nil _ _ h0
    · exact h ((trimSpace_eq_nil_iff _).mp h0)
  rw [if_neg h1, hd]

theorem not_whitespaceOnly_of_alnum (token : String) (c : Char) (rest : List Char)
    (hd : token.data = c :: rest) (h : isAsciiAlnum c) : ¬ whitespaceOnly token := by
  intro hw
  have := hw c (by rw [hd]; exact List.mem_cons_self _ _)
  rw [alnum_not_space c h] at this
  exact Bool.noConfusion this

theorem calculatePartition_alnum (token : String) (c : Char) (rest : List Char)
    (hd : token.data = c :: rest) (h : isAsciiAlnum c) :
    calculatePartition token = .ok (1 + (specBase62Value c % 40)) := by
  rw [calculatePartition_cons token c rest hd (not_whitespaceOnly_of_alnum token c rest hd h),
    charToBase62_alnum c h]

theorem calculatePartition_not_alnum (token : String) (c : Char) (rest : List Char)
    (hd : token.data = c :: rest) (hw : ¬ whitespaceOnly token) (h : ¬ isAsciiAlnum c) :
    calculatePartition token = .error .ErrInvalidBase62 := by
  rw [calculatePartition_cons token c rest hd hw, charToBase62_not_alnum c h]

theorem fmt02d_twoDigits : ∀ p < 100, fmt02d p = twoDigits p := by
  decide


/-! ### Theorems on tokens -/

/-- C1: for every token whose first character `c` is an ASCII alphanumeric,
`calculatePartition` succeeds and returns `1 + (v c mod 40)`, `v` being the position of
`c` in `0-9A-Za-z`; tokens starting with `0`, `A`, `a`, `z` yield 1, 11, 37, 22. -/
theorem calculatePartition_of_alnum (c : Char) (rest : List Char) (h : isAsciiAlnum c) :
    calculatePartition (String.mk (c :: rest)) = .ok (1 + (specBase62Value c % 40)) ∧
    calculatePartition (String.mk ('0' :: rest)) = .ok 1 ∧
    calculatePartition (String.mk ('A' :: rest)) = .ok 11 ∧
    calculatePartition (String.mk ('a' :: rest)) = .ok 37 ∧
    calculatePartition (String.mk ('z' :: rest)) = .ok 22 :=
  ⟨calculatePartition_alnum _ c rest rfl h,
    calculatePartition_alnum _ '0' rest rfl (by decide),
    calculatePartition_alnum _ 'A' rest rfl (by decide),
    calculatePartition_alnum _ 'a' rest rfl (by decide),
    calculatePartition_alnum _ 'z' rest rfl (by decide)⟩

theorem calculatePartition_of_alnum_witness :
    isAsciiAlnum 'B' ∧
    calculatePartition "B0GWZuqDGnuOLH" = .ok 12 ∧
    specBase62Value 'Z' = 35 ∧ specBase62Value 'z' = 61 :=
  ⟨by decide, (calculatePartition_of_alnum 'B' "0GWZuqDGnuOLH".data (by decide)).1,
    by decide, by decide⟩

/-- C2: when `calculatePartition` succeeds the partition lies in `[1, 40]`, and every
token with the same first character gets the same partition. -/
theorem calculatePartition_range_and_first_char (t1 t2 : String) (p : Nat)
    (h : calculatePartition t1 = .ok p) (hsame : t2.data.head? = t1.data.head?) :
    1 ≤ p ∧ p ≤ 40 ∧ calculatePartition t2 = .ok p := by
  by_cases hw : whitespaceOnly t1
  · rw [calculatePartition_whitespace t1 hw] at h
    exact Except.noConfusion h
  · cases hd : t1.data with
    | nil =>
      exact absurd (fun c hc => by rw [hd] at hc; exact absurd hc (List.not_mem_nil c)) hw
    | cons c rest =>
      by_cases ha : isAsciiAlnum c
      · rw [calculatePartition_alnum t1 c rest hd ha] at h
        have hp : p = 1 + specBase62Value c % 40 := by
          injection h with h; exact h.symm
        have hlt : specBase62Value c % 40 < 40 := Nat.mod_lt _ (by decide)
        rw [hd] at hsame
        cases hd2 : t2.data with
        | nil => rw [hd2] at hsame; simp at hsame
        | cons c2 rest2 =>
          rw [hd2] at hsame
          simp only [List.head?_cons, Option.some.injEq] at hsame
          subst hsame
          refine ⟨by omega, by omega, ?_⟩
          rw [calculatePartition_alnum t2 c2 rest2 hd2 ha, hp]
      · rw [calculatePartition_not_alnum t1 c rest hd hw ha] at h
        exact Except.noConfusion h

theorem calculatePartition_range_and_first_char_witness :
    calculatePartition "zebra" = .ok 22 ∧ calculatePartition "z" = .ok 22 :=
  ⟨by decide,
    (calculatePartition_range_and_first_char "zebra" "z" 22 (by decide) (by decide)).2.2⟩

/-- C3: `GetBaseURL` fails exactly when the token is empty or whitespace-only or its
first character is not an ASCII alphanumeric; the error is `ErrEmptyToken` exactly for
an empty or whitespace-only token and `ErrInvalidBase62` exactly for a token that is
not whitespace-only and whose first character is not an ASCII alphanumeric. -/
theorem GetBaseURL_error_iff (token : String) :
    ((∃ e, GetBaseURL token = .error e) ↔ (whitespaceOnly token ∨ firstCharNotAlnum token)) ∧
    (GetBaseURL token = .error .ErrEmptyToken ↔ whitespaceOnly token) ∧
    (GetBaseURL token = .error .ErrInvalidBase62 ↔
      (¬ whitespaceOnly token ∧ firstCharNotAlnum token)) := by
  by_cases hw : whitespaceOnly token
  · have hg : GetBaseURL token = .error .ErrEmptyToken := by
      unfold GetBaseURL
      rw [calculatePartition_whitespace token hw]
    rw [hg]
    refine ⟨⟨fun _ => Or.inl hw, fun _ => ⟨_, rfl⟩⟩, ⟨fun _ => hw, fun _ => rfl⟩, ?_⟩
    constructor
    · intro h; exact absurd h (by decide)
    · intro h; exact absurd hw h.1
  · cases hd : token.data with
    | nil =>
      exact absurd (fun c hc => by rw [hd] at hc; exact absurd hc (List.not_mem_nil c)) hw
    | cons c rest =>
      have hf : firstCharNotAlnum token ↔ ¬ isAsciiAlnum c := by
        unfold firstCharNotAlnum; rw [hd]
      by_cases ha : isAsciiAlnum c
      · have hg : ∃ u, GetBaseURL token = .ok u := by
          unfold GetBaseURL
          rw [calculatePartition_alnum token c rest hd ha]
          exact ⟨_, rfl⟩
        obtain ⟨u, hu⟩ := hg
        rw [hu]
        refine ⟨⟨?_, ?_⟩, ⟨?_, ?_⟩, ⟨?_, ?_⟩⟩
        · rintro ⟨e, he⟩; exact Except.noConfusion he
        · rintro (h | h)
          · exact absurd h hw
          · exact absurd ha (hf.mp h)
        · intro h; exact Except.noConfusion h
        · intro h; exact absurd h hw
        · intro h; exact Except.noConfusion h
        · intro h; exact absurd ha (hf.mp h.2)
      · have hg : GetBaseURL token = .error .ErrInvalidBase62 := by
          unfold GetBaseURL
          rw [calculatePartition_not_alnum token c rest hd hw ha]
        rw [hg]
        refine ⟨⟨fun _ => Or.inr (hf.mpr ha), fun _ => ⟨_, rfl⟩⟩, ⟨?_, ?_⟩,
          ⟨fun _ => ⟨hw, hf.mpr ha⟩, fun _ => rfl⟩⟩
        · intro h; exact absurd h (by decide)
        · intro h; exact absurd h hw

/-- C4: for every valid token (first character an ASCII alphanumeric) `GetBaseURL`
returns `https://p` ++ PP ++ `-sharedstreams.icloud.com/` ++ token ++ `/sharedstreams/`
where PP is the partition written as exactly two decimal digits (tens digit, units
digit), with the whole token verbatim; `9test` gives the `p10` endpoint. -/
theorem GetBaseURL_format (token : String) (c : Char) (rest : List Char)
    (hd : token.data = c :: rest) (h : isAsciiAlnum c) :
    (∃ p, calculatePartition token = .ok p ∧
      GetBaseURL token = .ok ("https://p" ++ twoDigits p ++ "-sharedstreams.icloud.com/" ++
        token ++ "/sharedstreams/")) ∧
    GetBaseURL "9test" = .ok "https://p10-sharedstreams.icloud.com/9test/sharedstreams/" := by
  refine ⟨⟨1 + specBase62Value c % 40, calculatePartition_alnum token c rest hd h, ?_⟩,
    by decide⟩
  unfold GetBaseURL
  rw [calculatePartition_alnum token c rest hd h]
  have hlt : specBase62Value c % 40 < 40 := Nat.mod_lt _ (by decide)
  show Except.ok _ = Except.ok _
  rw [fmt02d_twoDigits _ (by omega)]

theorem GetBaseURL_format_witness :
    ∃ p, calculatePartition "A5tokenXY" = .ok p ∧
      GetBaseURL "A5tokenXY" = .ok ("https://p" ++ twoDigits p ++
        "-sharedstreams.icloud.com/" ++ "A5tokenXY" ++ "/sharedstreams/") :=
  (GetBaseURL_format "A5tokenXY" 'A' "5tokenXY".data rfl (by decide)).1

/-! ### Lemmas on maps and enrichment -/

theorem mapGet_append_cons {V : Type} (pre suf : List (String × V)) (k : String) (v : V)
    (hk : k ∉ mapKeys pre) : mapGet (pre ++ (k, v) :: suf) k = some v := by
  induction pre with
  | nil => simp [mapGet]
  | cons a pre ih =>
    obtain ⟨k', v'⟩ := a
    have hne : k' ≠ k := fun e => hk (by simp [mapKeys, e])
    have hk' : k ∉ mapKeys pre := fun hm => hk (by
      simp only [mapKeys, List.map_cons, List.mem_cons]; exact Or.inr hm)
    simp only [List.cons_append, mapGet, if_neg hne]
    exact ih hk'

theorem mapSet_append_cons {V : Type} (pre suf : List (String × V)) (k : String) (v w : V)
    (hk : k ∉ mapKeys pre) : mapSet (pre ++ (k, v) :: suf) k w = pre ++ (k, w) :: suf := by
  induction pre with
  | nil => simp [mapSet]
  | cons a pre ih =>
    obtain ⟨k', v'⟩ := a
    have hne : k' ≠ k := fun e => hk (by simp [mapKeys, e])
    have hk' : k ∉ mapKeys pre := fun hm => hk (by
      simp only [mapKeys, List.map_cons, List.mem_cons]; exact Or.inr hm)
    simp only [List.cons_append, mapSet, if_neg hne]
    exact congrArg _ (ih hk')

theorem mapGet_map {V : Type} (m : List (String × V)) (f : V → V) (k : String) :
    mapGet (m.map (fun kd => (kd.1, f kd.2))) k = (mapGet m k).map f := by
  induction m with
  | nil => rfl
  | cons a m ih =>
    obtain ⟨k', v'⟩ := a
    simp only [List.map_cons, mapGet]
    by_cases h : k' = k
    · simp [h]
    · simp [h, ih]

theorem mapKeys_map {V : Type} (m : List (String × V)) (f : V → V) :
    mapKeys (m.map (fun kd => (kd.1, f kd.2))) = mapKeys m := by
  simp [mapKeys, List.map_map, Function.comp_def]

theorem foldl_range_eq_map
    (body : List (String × Derivative) → String → Derivative → List (String × Derivative))
    (g : Derivative → Derivative)
    (hbody : ∀ pre suf k d, k ∉ mapKeys pre →
      body (pre ++ (k, d) :: suf) k d = pre ++ (k, g d) :: suf)
    (suf : List (String × Derivative)) :
    ∀ pre : List (String × Derivative), (mapKeys (pre ++ suf)).Nodup →
      (mapKeys suf).foldl
        (fun acc k =>
          match mapGet acc k with
          | some d => body acc k d
          | none => acc)
        (pre ++ suf) = pre ++ suf.map (fun kd => (kd.1, g kd.2)) := by
  induction suf with
  | nil => intro pre _; simp [mapKeys]
  | cons a suf ih =>
    intro pre hnd
    obtain ⟨k, d⟩ := a
    have hk : k ∉ mapKeys pre := by
      intro hm
      simp only [mapKeys, List.map_append, List.map_cons] at hnd hm
      have := (List.nodup_append.mp hnd).2.2
      exact this hm (List.mem_cons_self _ _)
    have hnd' : (mapKeys ((pre ++ [(k, g d)]) ++ suf)).Nodup := by
      simpa [mapKeys, List.map_append] using hnd
    have := ih (pre ++ [(k, g d)]) hnd'
    simp only [mapKeys, List.map_cons, List.foldl_cons] at this ⊢
    rw [mapGet_append_cons pre suf k d hk]
    simp only [hbody pre suf k d hk]
    simpa [List.append_assoc] using this

theorem rangeUpdate_eq_map
    (body : List (String × Derivative) → String → Derivative → List (String × Derivative))
    (g : Derivative → Derivative)
    (hbody : ∀ pre suf k d, k ∉ mapKeys pre →
      body (pre ++ (k, d) :: suf) k d = pre ++ (k, g d) :: suf)
    (m : List (String × Derivative)) (hnd : (mapKeys m).Nodup) :
    rangeUpdate m body = m.map (fun kd => (kd.1, g kd.2)) := by
  have := foldl_range_eq_map body g hbody m [] (by simpa using hnd)
  simpa [rangeUpdate] using this

theorem checksumBody_spec (allURLs : List (String × String))
    (pre suf : List (String × Derivative)) (k : String) (d : Derivative)
    (hk : k ∉ mapKeys pre) :
    checksumBody allURLs (pre ++ (k, d) :: suf) k d =
      pre ++ (k, fillChecksum allURLs d) :: suf := by
  unfold checksumBody fillChecksum
  by_cases h : d.URL = none
  · rw [if_pos h, if_pos h]
    cases mapGet allURLs d.Checksum with
    | none => rfl
    | some u => exact mapSet_append_cons pre suf k d _ hk
  · rw [if_neg h, if_neg h]

theorem guidBody_spec (u : String)
    (pre suf : List (String × Derivative)) (k : String) (d : Derivative)
    (hk : k ∉ mapKeys pre) :
    guidBody u (pre ++ (k, d) :: suf) k d = pre ++ (k, fillGuid u d) :: suf := by
  unfold guidBody fillGuid
  by_cases h : d.URL = none
  · rw [if_pos h, if_pos h]
    exact mapSet_append_cons pre suf k d _ hk
  · rw [if_neg h, if_neg h]

theorem enrichPhoto_eq (allURLs : List (String × String)) (p : Image)
    (hnd : (mapKeys p.Derivatives).Nodup) :
    enrichPhoto allURLs p =
      { p with Derivatives :=
          p.Derivatives.map (fun kd => (kd.1, enrichDerivative allURLs p.PhotoGUID kd.2)) } := by
  unfold enrichPhoto
  have h1 := rangeUpdate_eq_map (checksumBody allURLs) (fillChecksum allURLs)
    (checksumBody_spec allURLs) p.Derivatives hnd
  simp only [h1]
  cases hg : mapGet allURLs p.PhotoGUID with
  | none =>
    simp only [enrichDerivative, hg]
  | some u =>
    have hnd1 : (mapKeys (p.Derivatives.map
        (fun kd => (kd.1, fillChecksum allURLs kd.2)))).Nodup := by
      rw [mapKeys_map]; exact hnd
    have h2 := rangeUpdate_eq_map (guidBody u) (fillGuid u) (guidBody_spec u) _ hnd1
    simp only [h2, enrichDerivative, hg, List.map_map, Function.comp_def]

theorem enrichDerivative_idem (allURLs : List (String × String)) (guid : String)
    (d : Derivative) :
    enrichDerivative allURLs guid (enrichDerivative allURLs guid d) =
      enrichDerivative allURLs guid d := by
  unfold enrichDerivative fillGuid fillChecksum
  cases hg : mapGet allURLs guid <;> cases hu : d.URL <;>
    cases hc : mapGet allURLs d.Checksum <;> simp [hu, hc]

theorem enrichDerivative_frame (allURLs : List (String × String)) (guid : String)
    (d : Derivative) : derivativeFrame d (enrichDerivative allURLs guid d) := by
  unfold derivativeFrame enrichDerivative fillGuid fillChecksum
  cases hg : mapGet allURLs guid <;> cases hu : d.URL <;>
    cases hc : mapGet allURLs d.Checksum <;> simp [hu]

theorem enrichDerivative_checksum (allURLs : List (String × String)) (guid : String)
    (d : Derivative) (u : String) (hnone : d.URL = none)
    (hu : mapGet allURLs d.Checksum = some u) :
    (enrichDerivative allURLs guid d).URL = some u := by
  unfold enrichDerivative fillGuid fillChecksum
  cases hg : mapGet allURLs guid <;> simp [hnone, hu]

theorem enrichPhoto_idem (allURLs : List (String × String)) (p : Image)
    (hnd : (mapKeys p.Derivatives).Nodup) :
    enrichPhoto allURLs (enrichPhoto allURLs p) = enrichPhoto allURLs p := by
  rw [enrichPhoto_eq allURLs p hnd]
  rw [enrichPhoto_eq allURLs _ (by rw [mapKeys_map]; exact hnd)]
  simp only [List.map_map, Function.comp_def, enrichDerivative_idem]

/-! ### Theorems on enrichment -/

/-- C5: `EnrichPhotosWithURLs` is idempotent: enriching twice with the same map yields
exactly the photos that enriching once yields. -/
theorem EnrichPhotosWithURLs_idempotent (photos : List Image)
    (allURLs : List (String × String)) (hwf : mapsWellFormed photos) :
    EnrichPhotosWithURLs (EnrichPhotosWithURLs photos allURLs) allURLs =
      EnrichPhotosWithURLs photos allURLs := by
  unfold EnrichPhotosWithURLs
  rw [List.map_map]
  apply List.map_congr_left
  intro p hp
  exact enrichPhoto_idem allURLs p (hwf p hp)

theorem EnrichPhotosWithURLs_idempotent_witness :
    EnrichPhotosWithURLs
        (EnrichPhotosWithURLs [testPhotoPriority, testPhotoMixed] testURLsPriority)
        testURLsPriority =
      EnrichPhotosWithURLs [testPhotoPriority, testPhotoMixed] testURLsPriority :=
  EnrichPhotosWithURLs_idempotent [testPhotoPriority, testPhotoMixed] testURLsPriority
    (by simp [mapsWellFormed, mapKeys, testPhotoPriority, testPhotoMixed])

/-- C6: a derivative without URL whose checksum is a key of the map gets the map's URL
for the checksum, whatever the map holds for the photo's GUID. -/
theorem EnrichPhotosWithURLs_checksum_wins (photos : List Image)
    (allURLs : List (String × String)) (hwf : mapsWellFormed photos)
    (i : Nat) (p : Image) (hp : photos[i]? = some p)
    (k : String) (d : Derivative) (hk : mapGet p.Derivatives k = some d)
    (hnone : d.URL = none) (u : String) (hu : mapGet allURLs d.Checksum = some u) :
    ∃ p' d', (EnrichPhotosWithURLs photos allURLs)[i]? = some p' ∧
      mapGet p'.Derivatives k = some d' ∧ d'.URL = some u := by
  have hmem : p ∈ photos := List.getElem?_mem hp
  refine ⟨enrichPhoto allURLs p, enrichDerivative allURLs p.PhotoGUID d, ?_, ?_, ?_⟩
  · unfold EnrichPhotosWithURLs
    rw [List.getElem?_map, hp]; rfl
  · rw [enrichPhoto_eq allURLs p (hwf p hmem)]
    show mapGet (p.Derivatives.map _) k = _
    rw [mapGet_map, hk]; rfl
  · exact enrichDerivative_checksum allURLs p.PhotoGUID d u hnone hu

theorem EnrichPhotosWithURLs_checksum_wins_witness :
    mapGet testURLsPriority "photo1" = some "https://example.com/guid.jpg" ∧
    ∃ p' d', (EnrichPhotosWithURLs [testPhotoPriority] testURLsPriority)[0]? = some p' ∧
      mapGet p'.Derivatives "original" = some d' ∧
      d'.URL = some "https://example.com/checksum.jpg" :=
  ⟨by decide,
    EnrichPhotosWithURLs_checksum_wins [testPhotoPriority] testURLsPriority
      (by simp [mapsWellFormed, mapKeys, testPhotoPriority, testPhotoMixed]) 0 testPhotoPriority rfl "original"
      { Checksum := "checksum1", FileSize := none, Width := none, Height := none,
        URL := none }
      (by decide) rfl "https://example.com/checksum.jpg" (by decide)⟩

/-- C7: `EnrichPhotosWithURLs` changes nothing except unset derivative URLs: the photos
keep their number and order, each photo keeps its GUID and other fields and its
derivative keys, each derivative keeps checksum, file size, width and height, and a URL
that was set is kept as it was. -/
theorem EnrichPhotosWithURLs_frame (photos : List Image)
    (allURLs : List (String × String)) (hwf : mapsWellFormed photos) :
    List.Forall₂ photoFrame photos (EnrichPhotosWithURLs photos allURLs) := by
  unfold EnrichPhotosWithURLs
  rw [List.forall₂_map_right_iff, List.forall₂_same]
  intro p hp
  rw [enrichPhoto_eq allURLs p (hwf p hp)]
  refine ⟨rfl, rfl, rfl, rfl, rfl, rfl, ?_⟩
  show List.Forall₂ _ p.Derivatives (p.Derivatives.map _)
  rw [List.forall₂_map_right_iff, List.forall₂_same]
  intro kd _
  exact ⟨rfl, enrichDerivative_frame allURLs p.PhotoGUID kd.2⟩

theorem EnrichPhotosWithURLs_frame_witness :
    List.Forall₂ photoFrame [testPhotoMixed, testPhotoPriority]
      (EnrichPhotosWithURLs [testPhotoMixed, testPhotoPriority] testURLsPriority) :=
  EnrichPhotosWithURLs_frame [testPhotoMixed, testPhotoPriority] testURLsPriority
    (by simp [mapsWellFormed, mapKeys, testPhotoPriority, testPhotoMixed])

/-! ### Lemmas on derivative selection -/

theorem foldl_invariant {σ α : Type} (f : σ → α → σ) (P : σ → Prop) (l : List α)
    (hstep : ∀ st a, a ∈ l → P st → P (f st a)) :
    ∀ init, P init → P (l.foldl f init) := by
  induction l with
  | nil => intro init h; exact h
  | cons a l ih =>
    intro init h
    rw [List.foldl_cons]
    exact ih (fun st b hb hP => hstep st b (List.mem_cons_of_mem _ hb) hP) _
      (hstep init a (List.mem_cons_self _ _) h)

theorem pixels_eq (w h : Nat) (hw : w < 2 ^ 32) (hh : h < 2 ^ 32) : pixels w h = w * h := by
  unfold pixels
  apply Nat.mod_eq_of_lt
  calc w * h < 2 ^ 32 * 2 ^ 32 := Nat.mul_lt_mul'' hw hh
    _ = 2 ^ 64 := by norm_num

theorem selectStep_no_url (tbl : Char → Char) (st : SelectState) (kv : String × Derivative)
    (h : kv.2.URL = none) : selectStep tbl st kv = st := by
  unfold selectStep
  rw [h]

theorem selectStep_maxPixels_lt (tbl : Char → Char) (st : SelectState)
    (kv : String × Derivative) (N : Nat) (hst : st.maxPixels < N)
    (hkv : hasUrlAndDims kv.2 → area kv.2 < N) (hwf : kv.2.wf) :
    (selectStep tbl st kv).maxPixels < N := by
  obtain ⟨k, v⟩ := kv
  unfold selectStep
  cases hu : v.URL with
  | none => exact hst
  | some u =>
    cases hw : v.Width with
    | none => simp only; split_ifs <;> simp_all
    | some w =>
      cases hh : v.Height with
      | none => simp only; split_ifs <;> simp_all
      | some h =>
        have hp : pixels w h = w * h := pixels_eq w h (hwf.2.1 w hw) (hwf.2.2 h hh)
        have ha : w * h < N := by
          have := hkv ⟨by simp [hu], by simp [hw], by simp [hh]⟩
          simpa [area, hw, hh] using this
        simp only
        split_ifs <;> simp_all

theorem selectStep_settled (tbl : Char → Char) (st : SelectState)
    (kv : String × Derivative) (N : Nat) (x : Derivative)
    (hO : st.haveOrig = true) (hM : st.maxPixels = N) (hB : st.best = some x)
    (hkv : hasUrlAndDims kv.2 → area kv.2 < N) (hwf : kv.2.wf) :
    selectStep tbl st kv = st := by
  obtain ⟨k, v⟩ := kv
  obtain ⟨bk, b, m, ho⟩ := st
  simp only at hO hM hB
  subst hO hM hB
  unfold selectStep
  cases hu : v.URL with
  | none => rfl
  | some u =>
    cases hw : v.Width with
    | none => simp only; split_ifs <;> simp_all
    | some w =>
      cases hh : v.Height with
      | none => simp only; split_ifs <;> simp_all
      | some h =>
        have hp : pixels w h = w * h := pixels_eq w h (hwf.2.1 w hw) (hwf.2.2 h hh)
        have ha : w * h < m := by
          have := hkv ⟨by simp [hu], by simp [hw], by simp [hh]⟩
          simpa [area, hw, hh] using this
        simp only
        split_ifs with h1 h2 h3
        all_goals first
          | rfl
          | exact False.elim (by assumption)
          | (rw [hp] at h2; omega)

theorem selectStep_dominant (tbl : Char → Char) (st : SelectState) (k : String)
    (x : Derivative) (u : String) (w h : Nat) (horig : isOriginalKey tbl k = true)
    (hurl : x.URL = some u) (hw : x.Width = some w) (hh : x.Height = some h)
    (hwf : x.wf) (hst : st.maxPixels < w * h) :
    selectStep tbl st (k, x) =
      { bestKey := k, best := some x, maxPixels := w * h, haveOrig := true } := by
  have hp : pixels w h = w * h := pixels_eq w h (hwf.2.1 w hw) (hwf.2.2 h hh)
  unfold selectStep
  simp only [hurl, horig, hw, hh, hp, if_true]
  rw [if_pos hst]

theorem key_ne_of_nodup (s t : List (String × Derivative)) (k : String) (x : Derivative)
    (hnd : (mapKeys (s ++ (k, x) :: t)).Nodup) (kd : String × Derivative)
    (hkd : kd ∈ s ∨ kd ∈ t) : kd.1 ≠ k := by
  simp only [mapKeys, List.map_append, List.map_cons] at hnd
  have h3 := List.nodup_append.mp hnd
  have hk_t : k ∉ t.map Prod.fst := (List.nodup_cons.mp h3.2.1).1
  have hk_s : k ∉ s.map Prod.fst := fun hm => h3.2.2 hm (List.mem_cons_self _ _)
  rcases hkd with hm | hm
  · intro e; exact hk_s (e ▸ List.mem_map_of_mem Prod.fst hm)
  · intro e; exact hk_t (e ▸ List.mem_map_of_mem Prod.fst hm)

theorem select_dominant (tbl : Char → Char) (derivs loop1 loop2 : List (String × Derivative))
    (hnd : (mapKeys derivs).Nodup) (h1 : loop1.Perm derivs)
    (hwf : ∀ kd ∈ derivs, kd.2.wf)
    (k : String) (x : Derivative) (u : String) (w h : Nat) (hx : (k, x) ∈ derivs)
    (horig : isOriginalKey tbl k = true) (hurl : x.URL = some u)
    (hw : x.Width = some w) (hh : x.Height = some h) (hpos : 0 < w * h)
    (hdom : ∀ kd ∈ derivs, kd.1 ≠ k → hasUrlAndDims kd.2 → area kd.2 < w * h) :
    SelectBestDerivative tbl loop1 loop2 = { key := k, d := x, url := u, ok := true } := by
  have hx1 : (k, x) ∈ loop1 := h1.mem_iff.mpr hx
  obtain ⟨s, t, rfl⟩ := List.append_of_mem hx1
  have hnd1 : (mapKeys (s ++ (k, x) :: t)).Nodup :=
    (h1.map Prod.fst).nodup_iff.mpr hnd
  have hmem : ∀ kd, kd ∈ s ∨ kd ∈ t → kd ∈ derivs := by
    intro kd hkd
    apply h1.mem_iff.mp
    rcases hkd with hm | hm
    · exact List.mem_append_left _ hm
    · exact List.mem_append_right _ (List.mem_cons_of_mem _ hm)
  have hA : (s.foldl (selectStep tbl) SelectState.init).maxPixels < w * h :=
    foldl_invariant (selectStep tbl) (fun st => st.maxPixels < w * h) s
      (fun st kd hkd hst =>
        selectStep_maxPixels_lt tbl st kd _ hst
          (hdom kd (hmem kd (Or.inl hkd)) (key_ne_of_nodup s t k x hnd1 kd (Or.inl hkd)))
          (hwf kd (hmem kd (Or.inl hkd))))
      _ hpos
  have hB := selectStep_dominant tbl (s.foldl (selectStep tbl) SelectState.init) k x u w h
    horig hurl hw hh (hwf _ hx) hA
  have hC : (s ++ (k, x) :: t).foldl (selectStep tbl) SelectState.init =
      { bestKey := k, best := some x, maxPixels := w * h, haveOrig := true } := by
    rw [List.foldl_append, List.foldl_cons, hB]
    exact foldl_invariant (selectStep tbl)
      (fun st => st = { bestKey := k, best := some x, maxPixels := w * h, haveOrig := true })
      t
      (fun st kd hkd hst => by
        subst hst
        exact selectStep_settled tbl _ kd (w * h) x rfl rfl rfl
          (hdom kd (hmem kd (Or.inr hkd)) (key_ne_of_nodup s t k x hnd1 kd (Or.inr hkd)))
          (hwf kd (hmem kd (Or.inr hkd))))
      _ rfl
  unfold SelectBestDerivative
  rw [if_neg (by simp)]
  simp only [hC, hurl, Option.getD_some]

theorem foldl_selectStep_no_url (tbl : Char → Char) (l : List (String × Derivative))
    (h : ∀ kd ∈ l, kd.2.URL = none) (st : SelectState) :
    l.foldl (selectStep tbl) st = st :=
  foldl_invariant (selectStep tbl) (fun s => s = st) l
    (fun s kd hkd hs => by rw [selectStep_no_url tbl s kd (h kd hkd)]; exact hs) st rfl

/-! ### Theorems on derivative selection -/

/-- C8: on the map {preview 3840x2160, original 1920x1080}, both with URL, an
original-like derivative with URL and dimensions exists, yet when the main loop visits
`preview` first `SelectBestDerivative` returns the non-original `preview`; when it
visits `original` first it returns `original`. -/
theorem SelectBestDerivative_preview_before_original :
    isOriginalKey id "original" = true ∧ isOriginalKey id "preview" = false ∧
    hasUrlAndDims smallOriginal ∧
    SelectBestDerivative id [("preview", largePreview), ("original", smallOriginal)]
        [("preview", largePreview), ("original", smallOriginal)] =
      { key := "preview", d := largePreview, url := "https://example.com/preview.jpg",
        ok := true } ∧
    SelectBestDerivative id [("original", smallOriginal), ("preview", largePreview)]
        [("preview", largePreview), ("original", smallOriginal)] =
      { key := "original", d := smallOriginal, url := "https://example.com/original.jpg",
        ok := true } := by
  decide

/-- C9: if an original-like derivative X has a URL, both dimensions and a positive pixel
area strictly greater than that of every other URL-bearing derivative with both
dimensions, `SelectBestDerivative` returns ok with the key and the URL of X, for every
visiting order `loop1` of the main loop and whatever the fallback loop visits; so {thumbnail 1920x1080, original 3840x2160} gives
`original` and {`1` 1920x1080, `4` 3840x2160} gives `4`. -/
theorem SelectBestDerivative_dominant_original (tbl : Char → Char)
    (derivs loop1 loop2 : List (String × Derivative))
    (hnd : (mapKeys derivs).Nodup) (h1 : loop1.Perm derivs)
    (hwf : ∀ kd ∈ derivs, kd.2.wf)
    (k : String) (x : Derivative) (u : String) (w h : Nat) (hx : (k, x) ∈ derivs)
    (horig : isOriginalKey tbl k = true) (hurl : x.URL = some u)
    (hw : x.Width = some w) (hh : x.Height = some h) (hpos : 0 < w * h)
    (hdom : ∀ kd ∈ derivs, kd.1 ≠ k → hasUrlAndDims kd.2 → area kd.2 < w * h) :
    ((SelectBestDerivative tbl loop1 loop2).ok = true ∧
      (SelectBestDerivative tbl loop1 loop2).key = k ∧
      (SelectBestDerivative tbl loop1 loop2).url = u) ∧
    (∀ l1 l2 : List (String × Derivative),
      l1.Perm [("thumbnail", testThumbnail), ("original", testOriginal)] →
      (SelectBestDerivative id l1 l2).ok = true ∧
        (SelectBestDerivative id l1 l2).key = "original") ∧
    (∀ l1 l2 : List (String × Derivative),
      l1.Perm [("1", testKey1), ("4", testKey4)] →
      (SelectBestDerivative id l1 l2).ok = true ∧
        (SelectBestDerivative id l1 l2).key = "4") := by
  refine ⟨?_, ?_, ?_⟩
  · rw [select_dominant tbl derivs loop1 loop2 hnd h1 hwf k x u w h hx horig hurl hw hh
      hpos hdom]
    exact ⟨rfl, rfl, rfl⟩
  · intro l1 l2 p1
    rw [select_dominant id [("thumbnail", testThumbnail), ("original", testOriginal)] l1 l2
      (by simp [mapKeys]) p1
      (by simp [Derivative.wf, testThumbnail, testOriginal])
      "original" testOriginal "https://example.com/2.jpg" 3840 2160 (by simp) (by decide)
      rfl rfl rfl (by norm_num)
      (by simp [hasUrlAndDims, area, testThumbnail, testOriginal])]
    exact ⟨rfl, rfl⟩
  · intro l1 l2 p1
    rw [select_dominant id [("1", testKey1), ("4", testKey4)] l1 l2
      (by simp [mapKeys]) p1
      (by simp [Derivative.wf, testKey1, testKey4])
      "4" testKey4 "https://example.com/2.jpg" 3840 2160 (by simp) (by decide)
      rfl rfl rfl (by norm_num)
      (by simp [hasUrlAndDims, area, testKey1, testKey4])]
    exact ⟨rfl, rfl⟩

theorem SelectBestDerivative_dominant_original_witness :
    (SelectBestDerivative id [("thumbnail", testThumbnail), ("original", testOriginal)]
        [("original", testOriginal), ("thumbnail", testThumbnail)]).ok = true ∧
    (SelectBestDerivative id [("thumbnail", testThumbnail), ("original", testOriginal)]
        [("original", testOriginal), ("thumbnail", testThumbnail)]).key = "original" ∧
    (SelectBestDerivative id [("thumbnail", testThumbnail), ("original", testOriginal)]
        [("original", testOriginal), ("thumbnail", testThumbnail)]).url =
      "https://example.com/2.jpg" :=
  (SelectBestDerivative_dominant_original id
    [("original", testOriginal), ("thumbnail", testThumbnail)]
    [("thumbnail", testThumbnail), ("original", testOriginal)]
    [("original", testOriginal), ("thumbnail", testThumbnail)]
    (by simp [mapKeys]) (List.Perm.swap _ _ _)
    (by simp [Derivative.wf, testThumbnail, testOriginal])
    "original" testOriginal "https://example.com/2.jpg" 3840 2160 (by simp) (by decide)
    rfl rfl rfl (by norm_num)
    (by simp [hasUrlAndDims, area, testThumbnail, testOriginal])).1

/-- C10: `SelectBestDerivative` returns ok = false exactly when no derivative of the
map has a URL (the empty map included), for every visiting order of both loops. -/
theorem SelectBestDerivative_ok_false_iff (tbl : Char → Char)
    (derivs loop1 loop2 : List (String × Derivative))
    (h1 : loop1.Perm derivs) (h2 : loop2.Perm derivs) :
    ((SelectBestDerivative tbl loop1 loop2).ok = false ↔ ∀ kd ∈ derivs, kd.2.URL = none) ∧
    ((∃ kd ∈ derivs, kd.2.URL.isSome = true) →
      (SelectBestDerivative tbl loop1 loop2).ok = true) := by
  have key : (SelectBestDerivative tbl loop1 loop2).ok = false ↔
      ∀ kd ∈ derivs, kd.2.URL = none := by
    constructor
    · intro hok kd hkd
      by_contra hne
      have hsome : kd.2.URL.isSome = true := by
        cases hu : kd.2.URL with
        | none => exact absurd hu hne
        | some u => rfl
      have hl1 : loop1.length ≠ 0 := by
        have : kd ∈ loop1 := h1.mem_iff.mpr hkd
        intro h0
        rw [List.length_eq_zero] at h0
        rw [h0] at this
        exact absurd this (List.not_mem_nil _)
      unfold SelectBestDerivative at hok
      rw [if_neg hl1] at hok
      simp only at hok
      cases hb : (loop1.foldl (selectStep tbl) SelectState.init).best with
      | some b => rw [hb] at hok; simp at hok
      | none =>
        rw [hb] at hok
        simp only at hok
        cases hf : loop2.find? (fun kv => kv.2.URL.isSome) with
        | some kv => rw [hf] at hok; simp at hok
        | none =>
          rw [List.find?_eq_none] at hf
          exact hf kd (h2.mem_iff.mpr hkd) hsome
    · intro hall
      have hall1 : ∀ kd ∈ loop1, kd.2.URL = none :=
        fun kd hkd => hall kd (h1.mem_iff.mp hkd)
      have hall2 : ∀ kd ∈ loop2, kd.2.URL = none :=
        fun kd hkd => hall kd (h2.mem_iff.mp hkd)
      unfold SelectBestDerivative
      split_ifs with h0
      · rfl
      · have hf : loop2.find? (fun kv => kv.2.URL.isSome) = none := by
          rw [List.find?_eq_none]
          intro kd hkd
          rw [hall2 kd hkd]; simp
        simp only [foldl_selectStep_no_url tbl loop1 hall1, SelectState.init, hf]
        rfl
  refine ⟨key, ?_⟩
  rintro ⟨kd, hkd, hsome⟩
  cases hok : (SelectBestDerivative tbl loop1 loop2).ok with
  | true => rfl
  | false =>
    have := key.mp hok kd hkd
    rw [this] at hsome
    exact absurd hsome (by simp)

theorem SelectBestDerivative_ok_false_iff_witness :
    ((SelectBestDerivative id [] []).ok = false ↔
      ∀ kd ∈ ([] : List (String × Derivative)), kd.2.URL = none) ∧
    (SelectBestDerivative id [("thumbnail", testThumbnail), ("original", testOriginal)]
        [("original", testOriginal), ("thumbnail", testThumbnail)]).ok = true :=
  ⟨(SelectBestDerivative_ok_false_iff id [] [] [] (List.Perm.refl _) (List.Perm.refl _)).1,
    (SelectBestDerivative_ok_false_iff id
      [("thumbnail", testThumbnail), ("original", testOriginal)]
      [("thumbnail", testThumbnail), ("original", testOriginal)]
      [("original", testOriginal), ("thumbnail", testThumbnail)]
      (List.Perm.refl _) (List.Perm.swap _ _ _)).2
      ⟨("original", testOriginal), by simp, by decide⟩⟩

/-! ### Lemmas on derivative selection without original-like keys -/

theorem foldl_invariant_prefix {σ α : Type} (f : σ → α → σ) (Inv : List α → σ → Prop)
    (l : List α)
    (hstep : ∀ vis st a, a ∈ l → Inv vis st → Inv (vis ++ [a]) (f st a)) :
    ∀ vis st, Inv vis st → Inv (vis ++ l) (l.foldl f st) := by
  induction l with
  | nil => intro vis st h; simpa using h
  | cons a l ih =>
    intro vis st h
    have h1 := hstep vis st a (List.mem_cons_self _ _) h
    have h2 := ih (fun vis st b hb hI => hstep vis st b (List.mem_cons_of_mem _ hb) hI)
      (vis ++ [a]) (f st a) h1
    simpa [List.append_assoc] using h2

theorem maxAreaInv_extend (vis : List (String × Derivative)) (st : SelectState)
    (kv : String × Derivative) (hinv : maxAreaInv vis st)
    (hkv : hasUrlAndDims kv.2 → area kv.2 ≤ st.maxPixels) :
    maxAreaInv (vis ++ [kv]) st := by
  obtain ⟨hO, hle, hbest⟩ := hinv
  refine ⟨hO, ?_, ?_⟩
  · intro kd hkd
    rcases List.mem_append.mp hkd with hm | hm
    · exact hle kd hm
    · rw [List.mem_singleton] at hm
      subst hm
      exact hkv
  · rcases hbest with hb | ⟨b, hb, hmem, hd, ha⟩
    · exact Or.inl hb
    · exact Or.inr ⟨b, hb, List.mem_append_left _ hmem, hd, ha⟩

theorem selectStep_maxAreaInv (tbl : Char → Char) (vis : List (String × Derivative))
    (st : SelectState) (kv : String × Derivative)
    (hno : isOriginalKey tbl kv.1 = false) (hwf : kv.2.wf) (hinv : maxAreaInv vis st) :
    maxAreaInv (vis ++ [kv]) (selectStep tbl st kv) := by
  obtain ⟨k, v⟩ := kv
  have hO : st.haveOrig = false := hinv.1
  simp only at hno hwf
  cases hu : v.URL with
  | none =>
    rw [selectStep_no_url tbl st (k, v) hu]
    exact maxAreaInv_extend vis st (k, v) hinv (fun hd => by
      have := hd.1
      simp [hu] at this)
  | some u =>
    cases hw : v.Width with
    | none =>
      have hs : selectStep tbl st (k, v) = st := by
        unfold selectStep
        simp [hu, hno, hO, hw]
      rw [hs]
      exact maxAreaInv_extend vis st (k, v) hinv (fun hd => by
        have := hd.2.1
        simp [hw] at this)
    | some w =>
      cases hh : v.Height with
      | none =>
        have hs : selectStep tbl st (k, v) = st := by
          unfold selectStep
          simp [hu, hno, hO, hw, hh]
        rw [hs]
        exact maxAreaInv_extend vis st (k, v) hinv (fun hd => by
          have := hd.2.2
          simp [hh] at this)
      | some h =>
        have hp : pixels w h = w * h := pixels_eq w h (hwf.2.1 w hw) (hwf.2.2 h hh)
        have ha : area v = w * h := by simp [area, hw, hh]
        have hd : hasUrlAndDims v := ⟨by simp [hu], by simp [hw], by simp [hh]⟩
        by_cases hgt : w * h > st.maxPixels
        · have hs : selectStep tbl st (k, v) =
              { st with maxPixels := w * h, bestKey := k, best := some v } := by
            unfold selectStep
            simp [hu, hno, hO, hw, hh, hp, hgt]
          rw [hs]
          refine ⟨hO, ?_, Or.inr ⟨v, rfl, by simp, hd, ha⟩⟩
          intro kd hkd hkd2
          rcases List.mem_append.mp hkd with hm | hm
          · have := hinv.2.1 kd hm hkd2
            show area kd.2 ≤ w * h
            omega
          · rw [List.mem_singleton] at hm
            subst hm
            show area v ≤ w * h
            omega
        · have hs : selectStep tbl st (k, v) = st := by
            unfold selectStep
            simp [hu, hno, hO, hw, hh, hp, hgt]
          rw [hs]
          exact maxAreaInv_extend vis st (k, v) hinv (fun _ => by
            show area v ≤ st.maxPixels
            omega)

theorem maxAreaInv_foldl (tbl : Char → Char) (l : List (String × Derivative))
    (hno : ∀ kd ∈ l, isOriginalKey tbl kd.1 = false) (hwf : ∀ kd ∈ l, kd.2.wf) :
    maxAreaInv l (l.foldl (selectStep tbl) SelectState.init) := by
  have h0 : maxAreaInv [] SelectState.init :=
    ⟨rfl, fun kd hkd => absurd hkd (List.not_mem_nil _), Or.inl ⟨rfl, rfl⟩⟩
  have := foldl_invariant_prefix (selectStep tbl) maxAreaInv l
    (fun vis st a ha hI => selectStep_maxAreaInv tbl vis st a (hno a ha) (hwf a ha) hI)
    [] SelectState.init h0
  simpa using this

/-! ### More theorems on derivative selection -/

/-- C11 as stated fails: on the map {a: 0x0 with URL, b: no dimensions, with URL}, which
has no original-like key and a URL-bearing derivative with both dimensions, the result
is `b`, a derivative without dimensions, when the fallback loop visits `b` first. -/
theorem SelectBestDerivative_zero_area_counterexample :
    isOriginalKey id "a" = false ∧ isOriginalKey id "b" = false ∧
    hasUrlAndDims zeroAreaDerivative ∧
    (SelectBestDerivative id [("a", zeroAreaDerivative), ("b", noDimsDerivative)]
        [("b", noDimsDerivative), ("a", zeroAreaDerivative)]).key = "b" ∧
    ¬ hasUrlAndDims
      (SelectBestDerivative id [("a", zeroAreaDerivative), ("b", noDimsDerivative)]
        [("b", noDimsDerivative), ("a", zeroAreaDerivative)]).d := by
  decide

/-- C11 (amended): for every derivative map with no original-like key and every
visiting order, if at least one URL-bearing derivative has both width and height and a
positive pixel area, `SelectBestDerivative` returns ok with an entry of the map that has
a URL and both dimensions and whose pixel area is maximal among the URL-bearing
derivatives that have both dimensions. -/
theorem SelectBestDerivative_no_original_max_area (tbl : Char → Char)
    (derivs loop1 loop2 : List (String × Derivative))
    (h1 : loop1.Perm derivs) (hwf : ∀ kd ∈ derivs, kd.2.wf)
    (hno : ∀ kd ∈ derivs, isOriginalKey tbl kd.1 = false)
    (hex : ∃ kd ∈ derivs, hasUrlAndDims kd.2 ∧ 0 < area kd.2) :
    (SelectBestDerivative tbl loop1 loop2).ok = true ∧
    ((SelectBestDerivative tbl loop1 loop2).key,
      (SelectBestDerivative tbl loop1 loop2).d) ∈ derivs ∧
    hasUrlAndDims (SelectBestDerivative tbl loop1 loop2).d ∧
    ∀ kd ∈ derivs, hasUrlAndDims kd.2 →
      area kd.2 ≤ area (SelectBestDerivative tbl loop1 loop2).d := by
  obtain ⟨kd0, hkd0, hd0, hpos⟩ := hex
  have hinv := maxAreaInv_foldl tbl loop1
    (fun kd hkd => hno kd (h1.mem_iff.mp hkd)) (fun kd hkd => hwf kd (h1.mem_iff.mp hkd))
  obtain ⟨_, hle, hbest⟩ := hinv
  have hmax : 0 < (loop1.foldl (selectStep tbl) SelectState.init).maxPixels := by
    have := hle kd0 (h1.mem_iff.mpr hkd0) hd0
    omega
  have hlen : loop1.length ≠ 0 := by
    intro h0
    rw [List.length_eq_zero] at h0
    have := h1.mem_iff.mpr hkd0
    rw [h0] at this
    exact absurd this (List.not_mem_nil _)
  rcases hbest with ⟨_, hz⟩ | ⟨b, hb, hmem, hd, ha⟩
  · omega
  · have hr : SelectBestDerivative tbl loop1 loop2 =
        { key := (loop1.foldl (selectStep tbl) SelectState.init).bestKey, d := b,
          url := b.URL.getD "", ok := true } := by
      unfold SelectBestDerivative
      rw [if_neg hlen]
      simp only [hb]
    rw [hr]
    refine ⟨rfl, h1.mem_iff.mp hmem, hd, ?_⟩
    intro kd hkd hkd2
    have := hle kd (h1.mem_iff.mpr hkd) hkd2
    show area kd.2 ≤ area b
    omega

theorem SelectBestDerivative_no_original_max_area_witness :
    (SelectBestDerivative id [("1", testKey1), ("2", largePreview)]
        [("2", largePreview), ("1", testKey1)]).ok = true ∧
    hasUrlAndDims (SelectBestDerivative id [("1", testKey1), ("2", largePreview)]
        [("2", largePreview), ("1", testKey1)]).d ∧
    area testKey1 ≤ area (SelectBestDerivative id [("1", testKey1), ("2", largePreview)]
        [("2", largePreview), ("1", testKey1)]).d :=
  have h := SelectBestDerivative_no_original_max_area id
    [("2", largePreview), ("1", testKey1)] [("1", testKey1), ("2", largePreview)]
    [("2", largePreview), ("1", testKey1)] (List.Perm.swap _ _ _)
    (by simp [Derivative.wf, testKey1, largePreview])
    (by
      intro kd hkd
      simp only [List.mem_cons, List.mem_singleton, List.not_mem_nil, or_false] at hkd
      rcases hkd with rfl | rfl <;> decide)
    ⟨("1", testKey1), by simp, by decide, by decide⟩
  ⟨h.1, h.2.2.1, h.2.2.2 ("1", testKey1) (by simp) (by decide)⟩

/-- C12: on the map {preview 1920x1080 with URL, original without dimensions, with
URL} an original-like derivative has a URL and none has both dimensions, yet when the
main loop visits `preview` first `SelectBestDerivative` returns the non-original
`preview`; when it visits `original` first it returns `original`. -/
theorem SelectBestDerivative_preview_before_dimensionless_original :
    isOriginalKey id "original" = true ∧ isOriginalKey id "preview" = false ∧
    noDimsDerivative.URL.isSome = true ∧ ¬ hasUrlAndDims noDimsDerivative ∧
    SelectBestDerivative id [("preview", testThumbnail), ("original", noDimsDerivative)]
        [("preview", testThumbnail), ("original", noDimsDerivative)] =
      { key := "preview", d := testThumbnail, url := "https://example.com/1.jpg",
        ok := true } ∧
    SelectBestDerivative id [("original", noDimsDerivative), ("preview", testThumbnail)]
        [("preview", testThumbnail), ("original", noDimsDerivative)] =
      { key := "original", d := noDimsDerivative, url := "https://example.com/nodims.jpg",
        ok := true } := by
  decide

/-! ### Lemmas on the retry loop -/

theorem assetLoop_retry (c : RetryConfig) (rand : Nat → Int → Int)
    (outcomes : Nat → Outcome) (fuel attempt : Nat) (sleeps : List Int)
    (h : retries c (outcomes attempt) attempt) :
    assetLoop c true rand outcomes (fuel + 1) attempt sleeps =
      assetLoop c true rand outcomes fuel (attempt + 1)
        (sleeps ++ [nextDelay (rand attempt) c attempt]) := by
  unfold retries at h
  rw [assetLoop]
  cases ho : outcomes attempt with
  | transportError =>
    rw [ho] at h
    simp only at h
    have : ¬ ((attempt : Int) ≥ c.MaxRetries) := by omega
    simp [this]
  | response status items =>
    rw [ho] at h
    simp only at h
    obtain ⟨h400, hnon, hsr, hlt⟩ := h
    simp [h400, hnon, hsr, hlt]

theorem assetLoop_reach (c : RetryConfig) (rand : Nat → Int → Int)
    (outcomes : Nat → Outcome) (k : Nat) :
    ∀ (fuel attempt : Nat) (sleeps : List Int),
      (∀ i, i < k → retries c (outcomes (attempt + i)) (attempt + i)) →
      assetLoop c true rand outcomes (fuel + k) attempt sleeps =
        assetLoop c true rand outcomes fuel (attempt + k)
          (sleeps ++ (List.range k).map
            (fun i => nextDelay (rand (attempt + i)) c (attempt + i))) := by
  induction k with
  | zero => intro fuel attempt sleeps _; simp
  | succ k ih =>
    intro fuel attempt sleeps h
    have h0 : retries c (outcomes attempt) attempt := by simpa using h 0 (by omega)
    have hstep := assetLoop_retry c rand outcomes (fuel + k) attempt sleeps h0
    have hrest := ih fuel (attempt + 1) (sleeps ++ [nextDelay (rand attempt) c attempt])
      (fun i hi => by
        have := h (i + 1) (by omega)
        have e : attempt + 1 + i = attempt + (i + 1) := by omega
        rw [e]; exact this)
    have e1 : fuel + (k + 1) = fuel + k + 1 := by omega
    have e2 : attempt + 1 + k = attempt + (k + 1) := by omega
    have hL : (sleeps ++ [nextDelay (rand attempt) c attempt]) ++
        (List.range k).map (fun i => nextDelay (rand (attempt + 1 + i)) c (attempt + 1 + i)) =
        sleeps ++ (List.range (k + 1)).map
          (fun i => nextDelay (rand (attempt + i)) c (attempt + i)) := by
      rw [List.range_succ_eq_map, List.map_cons, List.map_map, List.append_assoc]
      simp only [List.singleton_append, Nat.add_zero]
      have : (fun i => nextDelay (rand (attempt + 1 + i)) c (attempt + 1 + i)) =
          ((fun i => nextDelay (rand (attempt + i)) c (attempt + i)) ∘ Nat.succ) := by
        funext i
        have e3 : attempt + 1 + i = attempt + (i + 1) := by omega
        simp [Function.comp, e3]
      rw [this]
    rw [e1, hstep, hrest, e2, hL]

theorem retries_lt (c : RetryConfig) (o : Outcome) (attempt : Nat)
    (h : retries c o attempt) : (attempt : Int) < c.MaxRetries := by
  unfold retries at h
  cases o with
  | transportError => exact h
  | response status items => exact h.2.2.2

theorem GetAssetURLs_reach (c : RetryConfig) (rand : Nat → Int → Int)
    (outcomes : Nat → Outcome) (photoGUIDs : List String) (hne : photoGUIDs ≠ [])
    (k : Nat) (hreach : ∀ i, i < k → retries c (outcomes i) i) :
    ∃ fuel, GetAssetURLs (some c) true rand outcomes photoGUIDs =
      assetLoop c true rand outcomes (fuel + 1) k (delaysBefore c rand k) := by
  have hk : k ≤ c.MaxRetries.toNat := by
    cases k with
    | zero => omega
    | succ j =>
      have := retries_lt c _ _ (hreach j (by omega))
      omega
  refine ⟨c.MaxRetries.toNat - k, ?_⟩
  have hlen : photoGUIDs.length ≠ 0 := by
    intro h0; exact hne (List.length_eq_zero.mp h0)
  unfold GetAssetURLs
  simp only [if_neg hlen]
  have e : c.MaxRetries.toNat + 1 = (c.MaxRetries.toNat - k + 1) + k := by omega
  rw [e, assetLoop_reach c rand outcomes k (c.MaxRetries.toNat - k + 1) 0 []
    (fun i hi => by simpa using hreach i hi)]
  simp [delaysBefore]

theorem assetLoop_status_400 (c : RetryConfig) (rand : Nat → Int → Int)
    (outcomes : Nat → Outcome) (fuel attempt : Nat) (sleeps : List Int)
    (items : Option (List (String × AssetItem)))
    (h : outcomes attempt = .response 400 items) :
    assetLoop c true rand outcomes (fuel + 1) attempt sleeps =
      some { result := .ok [], requests := attempt + 1, sleeps := sleeps } := by
  rw [assetLoop]
  simp [h]

theorem assetLoop_success (c : RetryConfig) (rand : Nat → Int → Int)
    (outcomes : Nat → Outcome) (fuel attempt : Nat) (sleeps : List Int)
    (status : Int) (items : List (String × AssetItem))
    (h : outcomes attempt = .response status (some items))
    (h200 : 200 ≤ status) (h300 : status < 300) :
    assetLoop c true rand outcomes (fuel + 1) attempt sleeps =
      some { result := .ok (buildAssetURLs items), requests := attempt + 1,
             sleeps := sleeps } := by
  rw [assetLoop]
  have h400 : status ≠ 400 := by omega
  have hnon : ¬ (status < 200 ∨ status ≥ 300) := by omega
  simp [h, h400, hnon]

/-! ### Lemmas on the map built from the items -/

theorem mapSet_of_not_mem {V : Type} (m : List (String × V)) (k : String) (v : V)
    (hk : k ∉ mapKeys m) : mapSet m k v = m ++ [(k, v)] := by
  induction m with
  | nil => rfl
  | cons a m ih =>
    obtain ⟨k', v'⟩ := a
    have hne : k' ≠ k := fun e => hk (by simp [mapKeys, e])
    have hk' : k ∉ mapKeys m := fun hm => hk (by
      simp only [mapKeys, List.map_cons, List.mem_cons]; exact Or.inr hm)
    simp only [mapSet, if_neg hne, List.cons_append]
    exact congrArg _ (ih hk')

theorem mapGet_eq_none_of_not_mem {V : Type} (m : List (String × V)) (k : String)
    (hk : k ∉ mapKeys m) : mapGet m k = none := by
  induction m with
  | nil => rfl
  | cons a m ih =>
    obtain ⟨k', v'⟩ := a
    have hne : k' ≠ k := fun e => hk (by simp [mapKeys, e])
    have hk' : k ∉ mapKeys m := fun hm => hk (by
      simp only [mapKeys, List.map_cons, List.mem_cons]; exact Or.inr hm)
    simp only [mapGet, if_neg hne]
    exact ih hk'

theorem mem_mapKeys_iff_mapGet {V : Type} (m : List (String × V)) (k : String) :
    k ∈ mapKeys m ↔ ∃ v, mapGet m k = some v := by
  induction m with
  | nil => simp [mapKeys, mapGet]
  | cons a m ih =>
    obtain ⟨k', v'⟩ := a
    by_cases hne : k' = k
    · subst hne
      simp [mapKeys, mapGet]
    · have hne' : ¬ k = k' := fun e => hne e.symm
      simp only [mapKeys, List.map_cons, List.mem_cons, mapGet, if_neg hne, hne', false_or]
      exact ih

/-- The entries `buildAssetURLs` keeps, with their URLs. -/
theorem buildAssetURLs_foldl (items : List (String × AssetItem)) :
    ∀ acc : List (String × String), (mapKeys acc ++ mapKeys items).Nodup →
      items.foldl
        (fun res kv =>
          if kv.2.URLLocation = "" ∨ kv.2.URLPath = "" then res
          else mapSet res kv.1 ("https://" ++ kv.2.URLLocation ++ kv.2.URLPath))
        acc =
      acc ++ items.filterMap
        (fun kv => if hasBothFragments kv.2 then some (kv.1, assetURL kv.2) else none) := by
  induction items with
  | nil => intro acc _; simp
  | cons a items ih =>
    intro acc hnd
    obtain ⟨k, it⟩ := a
    have hk : k ∉ mapKeys acc := by
      intro hm
      have := (List.nodup_append.mp hnd).2.2
      exact this hm (by simp [mapKeys])
    rw [List.foldl_cons]
    by_cases hg : hasBothFragments it
    · have hcond : ¬ (it.URLLocation = "" ∨ it.URLPath = "") := by
        unfold hasBothFragments at hg
        intro h; rcases h with h | h
        · exact hg.1 h
        · exact hg.2 h
      simp only [if_neg hcond]
      rw [mapSet_of_not_mem acc k _ hk]
      have hnd' : (mapKeys (acc ++ [(k, "https://" ++ it.URLLocation ++ it.URLPath)]) ++
          mapKeys items).Nodup := by
        simpa [mapKeys, List.map_append, List.append_assoc] using hnd
      rw [ih _ hnd']
      simp [List.filterMap_cons, hg, assetURL, List.append_assoc]
    · have hcond : it.URLLocation = "" ∨ it.URLPath = "" := by
        unfold hasBothFragments at hg
        by_contra hc
        push_neg at hc
        exact hg hc
      simp only [if_pos hcond]
      have hnd' : (mapKeys acc ++ mapKeys items).Nodup := by
        have : (mapKeys acc ++ mapKeys ((k, it) :: items)).Nodup := hnd
        simp only [mapKeys, List.map_cons] at this ⊢
        exact List.Nodup.sublist
          (List.Sublist.append_left (List.sublist_cons_self _ _) _) this
      rw [ih _ hnd']
      simp [List.filterMap_cons, hg]

theorem buildAssetURLs_eq (items : List (String × AssetItem))
    (hnd : (mapKeys items).Nodup) :
    buildAssetURLs items = items.filterMap
      (fun kv => if hasBothFragments kv.2 then some (kv.1, assetURL kv.2) else none) := by
  have := buildAssetURLs_foldl items [] (by simpa [mapKeys] using hnd)
  simpa [buildAssetURLs] using this

theorem mapGet_kept (items : List (String × AssetItem)) (hnd : (mapKeys items).Nodup)
    (id : String) :
    mapGet (items.filterMap
      (fun kv => if hasBothFragments kv.2 then some (kv.1, assetURL kv.2) else none)) id =
      match mapGet items id with
      | some it => if hasBothFragments it then some (assetURL it) else none
      | none => none := by
  induction items with
  | nil => rfl
  | cons a items ih =>
    obtain ⟨k, it⟩ := a
    have hnd' : (mapKeys items).Nodup := by
      simp only [mapKeys, List.map_cons] at hnd ⊢
      exact (List.nodup_cons.mp hnd).2
    have hk : k ∉ mapKeys items := by
      simp only [mapKeys, List.map_cons] at hnd ⊢
      exact (List.nodup_cons.mp hnd).1
    by_cases hkid : k = id
    · subst hkid
      by_cases hg : hasBothFragments it
      · simp [List.filterMap_cons, hg, mapGet]
      · have hnone : mapGet items k = none := mapGet_eq_none_of_not_mem items k hk
        have := ih hnd'
        rw [hnone] at this
        simp only [List.filterMap_cons, hg, if_false, mapGet, if_true]
        simpa using this
    · by_cases hg : hasBothFragments it
      · simp only [List.filterMap_cons, hg, if_true, mapGet, if_neg hkid]
        exact ih hnd'
      · simp only [List.filterMap_cons, hg, if_false, mapGet, if_neg hkid]
        exact ih hnd'

/-! ### Theorems on asset URLs and retries -/

/-- C13: for every non-empty id list and every retry configuration, whatever it lists
for 400, if attempt `k` takes place and its response has status 400, `GetAssetURLs`
returns the empty map and no error after exactly `k + 1` requests, having slept only
the delays before attempt `k`. -/
theorem GetAssetURLs_status_400 (c : RetryConfig) (rand : Nat → Int → Int)
    (outcomes : Nat → Outcome) (photoGUIDs : List String) (hne : photoGUIDs ≠ [])
    (k : Nat) (items : Option (List (String × AssetItem)))
    (hreach : ∀ i, i < k → retries c (outcomes i) i)
    (h400 : outcomes k = .response 400 items) :
    GetAssetURLs (some c) true rand outcomes photoGUIDs =
      some { result := .ok [], requests := k + 1, sleeps := delaysBefore c rand k } := by
  obtain ⟨fuel, hf⟩ := GetAssetURLs_reach c rand outcomes photoGUIDs hne k hreach
  rw [hf, assetLoop_status_400 c rand outcomes fuel k _ items h400]

theorem GetAssetURLs_status_400_witness :
    shouldRetryStatus config400Retryable 400 = true ∧
    GetAssetURLs (some config400Retryable) true randMax outcomes503then400 ["g1"] =
      some { result := .ok [], requests := 2,
             sleeps := delaysBefore config400Retryable randMax 1 } :=
  ⟨by decide,
    GetAssetURLs_status_400 config400Retryable randMax outcomes503then400 ["g1"]
      (by simp) 1 none
      (by
        intro i hi
        have : i = 0 := by omega
        subst this
        decide)
      rfl⟩

/-- C14: when attempt `k` takes place and gets a 2xx response whose body decodes to an
items mapping, `GetAssetURLs` returns without error a map whose keys are exactly the ids
whose `url_location` and `url_path` are both non-empty, each with the value
`https://` ++ url_location ++ url_path. -/
theorem GetAssetURLs_success_map (c : RetryConfig) (rand : Nat → Int → Int)
    (outcomes : Nat → Outcome) (photoGUIDs : List String) (hne : photoGUIDs ≠ [])
    (k : Nat) (status : Int) (items : List (String × AssetItem))
    (hreach : ∀ i, i < k → retries c (outcomes i) i)
    (h2xx : outcomes k = .response status (some items))
    (h200 : 200 ≤ status) (h300 : status < 300) (hnd : (mapKeys items).Nodup) :
    ∃ res, GetAssetURLs (some c) true rand outcomes photoGUIDs =
        some { result := .ok res, requests := k + 1, sleeps := delaysBefore c rand k } ∧
      (∀ id, id ∈ mapKeys res ↔ ∃ it, mapGet items id = some it ∧ hasBothFragments it) ∧
      (∀ id it, mapGet items id = some it → hasBothFragments it →
        mapGet res id = some ("https://" ++ it.URLLocation ++ it.URLPath)) := by
  obtain ⟨fuel, hf⟩ := GetAssetURLs_reach c rand outcomes photoGUIDs hne k hreach
  refine ⟨buildAssetURLs items, ?_, ?_, ?_⟩
  · rw [hf, assetLoop_success c rand outcomes fuel k _ status items h2xx h200 h300]
  · intro id
    rw [mem_mapKeys_iff_mapGet, buildAssetURLs_eq items hnd, mapGet_kept items hnd id]
    cases hg : mapGet items id with
    | none => simp
    | some it =>
      by_cases hb : hasBothFragments it
      · simp [hb]
      · simp [hb]
  · intro id it hget hb
    rw [buildAssetURLs_eq items hnd, mapGet_kept items hnd id, hget]
    simp [hb, assetURL]

theorem GetAssetURLs_success_map_witness :
    ∃ res, GetAssetURLs (some DefaultRetryConfig) true randMax outcomes500then200 ["g1"] =
        some { result := .ok res, requests := 2,
               sleeps := delaysBefore DefaultRetryConfig randMax 1 } ∧
      (∀ id, id ∈ mapKeys res ↔ ∃ it, mapGet testItems id = some it ∧ hasBothFragments it) ∧
      (∀ id it, mapGet testItems id = some it → hasBothFragments it →
        mapGet res id = some ("https://" ++ it.URLLocation ++ it.URLPath)) :=
  GetAssetURLs_success_map DefaultRetryConfig randMax outcomes500then200 ["g1"]
    (by simp) 1 200 testItems
    (by
      intro i hi
      have : i = 0 := by omega
      subst this
      decide)
    rfl (by decide) (by decide) (by simp [mapKeys, testItems])

/-- C15: `shouldRetryStatus cfg code` is true exactly when `code` is not in
`PermanentFailureStatusCodes` and is in `RetryableStatusCodes` or between 500 and 599;
so a code listed in both sets, or a 5xx code listed as permanent, is not retried. -/
theorem shouldRetryStatus_iff (cfg : RetryConfig) (code : Int) :
    shouldRetryStatus cfg code = true ↔
      code ∉ cfg.PermanentFailureStatusCodes ∧
        (code ∈ cfg.RetryableStatusCodes ∨ (500 ≤ code ∧ code ≤ 599)) := by
  unfold shouldRetryStatus
  have hP : (cfg.PermanentFailureStatusCodes.any (fun s => code == s)) = true ↔
      code ∈ cfg.PermanentFailureStatusCodes := by
    simp [List.any_eq_true]
  have hR : (cfg.RetryableStatusCodes.any (fun s => code == s)) = true ↔
      code ∈ cfg.RetryableStatusCodes := by
    simp [List.any_eq_true]
  by_cases h1 : code ∈ cfg.PermanentFailureStatusCodes
  · rw [if_pos (hP.mpr h1)]
    simp [h1]
  · rw [if_neg (fun h => h1 (hP.mp h))]
    by_cases h2 : code ∈ cfg.RetryableStatusCodes
    · rw [if_pos (hR.mpr h2)]
      simp [h1, h2]
    · rw [if_neg (fun h => h2 (hR.mp h))]
      simp [h1, h2]

theorem retries_of_retryable (c : RetryConfig) (o : Outcome) (attempt : Nat)
    (h1 : retryableOutcome c o) (h2 : retryableNon2xx c o)
    (hlt : (attempt : Int) < c.MaxRetries) : retries c o attempt := by
  cases o with
  | transportError => exact hlt
  | response status items =>
    unfold retryableOutcome at h1
    unfold retryableNon2xx at h2
    exact ⟨h1.2, h2.2, h1.1, hlt⟩

theorem assetLoop_exhausted (c : RetryConfig) (rand : Nat → Int → Int)
    (outcomes : Nat → Outcome) (fuel attempt : Nat) (sleeps : List Int)
    (h1 : retryableOutcome c (outcomes attempt)) (h2 : retryableNon2xx c (outcomes attempt))
    (hge : (attempt : Int) ≥ c.MaxRetries) :
    ∃ e, assetLoop c true rand outcomes (fuel + 1) attempt sleeps =
      some { result := .error e, requests := attempt + 1, sleeps := sleeps } := by
  rw [assetLoop]
  cases ho : outcomes attempt with
  | transportError =>
    exact ⟨.network, by simp [hge]⟩
  | response status items =>
    rw [ho] at h1 h2
    unfold retryableOutcome at h1
    unfold retryableNon2xx at h2
    have hnlt : ¬ ((attempt : Int) < c.MaxRetries) := by omega
    exact ⟨.status status, by simp [h1.2, h2.2, hnlt]⟩

theorem assetLoop_terminates (c : RetryConfig) (urlOk : Bool) (rand : Nat → Int → Int)
    (outcomes : Nat → Outcome) (fuel : Nat) :
    ∀ (attempt : Nat) (sleeps : List Int), attempt ≤ c.MaxRetries.toNat →
      c.MaxRetries.toNat + 1 ≤ attempt + fuel →
      ∃ run, assetLoop c urlOk rand outcomes fuel attempt sleeps = some run ∧
        run.requests ≤ c.MaxRetries.toNat + 1 := by
  induction fuel with
  | zero => intro attempt sleeps h1 h2; omega
  | succ fuel ih =>
    intro attempt sleeps h1 h2
    rw [assetLoop]
    cases urlOk with
    | false =>
      exact ⟨{ result := .error .newRequest, requests := attempt, sleeps := sleeps },
        by simp, by show attempt ≤ _; omega⟩
    | true =>
      simp only [Bool.true_eq_false, if_false]
      cases ho : outcomes attempt with
      | transportError =>
        simp only
        by_cases hge : (attempt : Int) ≥ c.MaxRetries
        · rw [if_pos hge]
          exact ⟨_, rfl, by simp; omega⟩
        · rw [if_neg hge]
          exact ih (attempt + 1) _ (by omega) (by omega)
      | response status items =>
        simp only
        by_cases h400 : status = 400
        · rw [if_pos h400]
          exact ⟨_, rfl, by simp; omega⟩
        · rw [if_neg h400]
          by_cases hnon : status < 200 ∨ status ≥ 300
          · rw [if_pos hnon]
            by_cases hr : shouldRetryStatus c status = true ∧ (attempt : Int) < c.MaxRetries
            · rw [if_pos hr]
              have := hr.2
              exact ih (attempt + 1) _ (by omega) (by omega)
            · rw [if_neg hr]
              exact ⟨_, rfl, by simp; omega⟩
          · rw [if_neg hnon]
            cases items with
            | none => exact ⟨_, rfl, by simp; omega⟩
            | some its => exact ⟨_, rfl, by simp; omega⟩

theorem GetAssetURLs_terminates (c : RetryConfig) (urlOk : Bool) (rand : Nat → Int → Int)
    (outcomes : Nat → Outcome) (photoGUIDs : List String) :
    ∃ run, GetAssetURLs (some c) urlOk rand outcomes photoGUIDs = some run ∧
      run.requests ≤ c.MaxRetries.toNat + 1 := by
  unfold GetAssetURLs
  by_cases h0 : photoGUIDs.length = 0
  · simp only [if_pos h0]
    exact ⟨_, rfl, by simp⟩
  · simp only [if_neg h0]
    exact assetLoop_terminates c urlOk rand outcomes _ 0 [] (by omega) (by omega)

theorem delaysBefore_length (c : RetryConfig) (rand : Nat → Int → Int) (k : Nat) :
    (delaysBefore c rand k).length = k := by
  simp [delaysBefore]

theorem delaysBefore_getElem? (c : RetryConfig) (rand : Nat → Int → Int) (k i : Nat)
    (hi : i < k) : (delaysBefore c rand k)[i]? = some (nextDelay (rand i) c i) := by
  simp [delaysBefore, List.getElem?_map, List.getElem?_range hi]

/-- C16 as stated fails: with 200 listed as retryable, a first response 200 is a
retryable status other than 400 and the second response is a decodable 2xx, yet the
call returns after one request and no sleep instead of two requests and one sleep. -/
theorem GetAssetURLs_retryable_2xx_counterexample :
    (1 : Int) ≤ config200Retryable.MaxRetries ∧
    retryableOutcome config200Retryable (outcomesAll200 0) ∧
    outcomesAll200 1 = .response 200 (some []) ∧
    GetAssetURLs (some config200Retryable) true randMax outcomesAll200 ["g1"] =
      some { result := .ok [], requests := 1, sleeps := [] } := by
  decide

/-- C16 (amended): for every retry configuration and every `k` with
`0 <= k <= MaxRetries`, if the first `k` attempts each end in a transport failure or a
non-2xx status other than 400 for which `shouldRetryStatus` holds, and the next attempt
returns a 2xx with a decodable body, the call succeeds after exactly `k + 1` requests
and exactly `k` sleeps, sleep number `i` being `nextDelay cfg i`. -/
theorem GetAssetURLs_success_after_retries (c : RetryConfig) (rand : Nat → Int → Int)
    (outcomes : Nat → Outcome) (photoGUIDs : List String) (hne : photoGUIDs ≠ [])
    (k : Nat) (hk : (k : Int) ≤ c.MaxRetries)
    (hfirst : ∀ i, i < k →
      retryableOutcome c (outcomes i) ∧ retryableNon2xx c (outcomes i))
    (status : Int) (items : List (String × AssetItem))
    (h2xx : outcomes k = .response status (some items))
    (h200 : 200 ≤ status) (h300 : status < 300) :
    ∃ run, GetAssetURLs (some c) true rand outcomes photoGUIDs = some run ∧
      run.result = .ok (buildAssetURLs items) ∧ run.requests = k + 1 ∧
      run.sleeps.length = k ∧
      ∀ i, i < k → run.sleeps[i]? = some (nextDelay (rand i) c i) := by
  have hreach : ∀ i, i < k → retries c (outcomes i) i := fun i hi =>
    retries_of_retryable c _ i (hfirst i hi).1 (hfirst i hi).2 (by omega)
  obtain ⟨fuel, hf⟩ := GetAssetURLs_reach c rand outcomes photoGUIDs hne k hreach
  refine ⟨_, by
    rw [hf, assetLoop_success c rand outcomes fuel k _ status items h2xx h200 h300],
    rfl, rfl, delaysBefore_length c rand k, ?_⟩
  intro i hi
  exact delaysBefore_getElem? c rand k i hi

theorem GetAssetURLs_success_after_retries_witness :
    ∃ run, GetAssetURLs (some DefaultRetryConfig) true randMax outcomes503503200 ["g1"] =
        some run ∧
      run.result = .ok (buildAssetURLs []) ∧ run.requests = 3 ∧ run.sleeps.length = 2 ∧
      ∀ i, i < 2 → run.sleeps[i]? = some (nextDelay (randMax i) DefaultRetryConfig i) :=
  GetAssetURLs_success_after_retries DefaultRetryConfig randMax outcomes503503200 ["g1"]
    (by simp) 2 (by decide)
    (by
      intro i hi
      have : i = 0 ∨ i = 1 := by omega
      rcases this with rfl | rfl <;> decide)
    200 [] rfl (by decide) (by decide)

/-- C17 as stated fails: with 400 listed as retryable and not as permanent, every
outcome being the retryable non-2xx status 400, the call returns the empty map after
one request instead of an error after `MaxRetries + 1 = 4` requests. -/
theorem GetAssetURLs_retryable_400_counterexample :
    (0 : Int) ≤ config400Retryable.MaxRetries ∧
    (∀ i, retryableNon2xx config400Retryable (outcomesAll400 i)) ∧
    GetAssetURLs (some config400Retryable) true randMax outcomesAll400 ["g1"] =
      some { result := .ok [], requests := 1, sleeps := [] } :=
  ⟨by decide,
    fun _ => by
      show retryableNon2xx config400Retryable (.response 400 none)
      decide,
    by decide⟩

/-- C17 (amended): for every retry configuration with `MaxRetries >= 0`, every
non-empty id list and every sequence of outcomes, `GetAssetURLs` returns after at most
`MaxRetries + 1` requests; and if every outcome is a transport failure or a non-2xx
status other than 400 for which `shouldRetryStatus` holds, it issues exactly
`MaxRetries + 1` requests, sleeps exactly `MaxRetries` times and returns an error. -/
theorem GetAssetURLs_retries_exhausted (c : RetryConfig) (rand : Nat → Int → Int)
    (outcomes : Nat → Outcome) (photoGUIDs : List String) (hne : photoGUIDs ≠ [])
    (hmax : 0 ≤ c.MaxRetries)
    (hall : ∀ i, retryableOutcome c (outcomes i) ∧ retryableNon2xx c (outcomes i)) :
    (∀ (urlOk : Bool) (anyOutcomes : Nat → Outcome),
      ∃ run, GetAssetURLs (some c) urlOk rand anyOutcomes photoGUIDs = some run ∧
        (run.requests : Int) ≤ c.MaxRetries + 1) ∧
    ∃ run e, GetAssetURLs (some c) true rand outcomes photoGUIDs = some run ∧
      run.result = .error e ∧ (run.requests : Int) = c.MaxRetries + 1 ∧
      (run.sleeps.length : Int) = c.MaxRetries := by
  have hM : ((c.MaxRetries.toNat : Nat) : Int) = c.MaxRetries := Int.toNat_of_nonneg hmax
  constructor
  · intro urlOk anyOutcomes
    obtain ⟨run, hrun, hle⟩ := GetAssetURLs_terminates c urlOk rand anyOutcomes photoGUIDs
    exact ⟨run, hrun, by omega⟩
  · have hreach : ∀ i, i < c.MaxRetries.toNat → retries c (outcomes i) i := fun i hi =>
      retries_of_retryable c _ i (hall i).1 (hall i).2 (by omega)
    obtain ⟨fuel, hf⟩ :=
      GetAssetURLs_reach c rand outcomes photoGUIDs hne c.MaxRetries.toNat hreach
    obtain ⟨e, he⟩ := assetLoop_exhausted c rand outcomes fuel c.MaxRetries.toNat
      (delaysBefore c rand c.MaxRetries.toNat) (hall _).1 (hall _).2 (by omega)
    refine ⟨_, e, by rw [hf, he], rfl, ?_, ?_⟩
    · simp only [Nat.cast_add, Nat.cast_one, hM]
    · simp only [delaysBefore_length, hM]

theorem GetAssetURLs_retries_exhausted_witness :
    ∃ run e, GetAssetURLs (some DefaultRetryConfig) true randMax outcomesAll503 ["g1"] =
        some run ∧
      run.result = .error e ∧ (run.requests : Int) = DefaultRetryConfig.MaxRetries + 1 ∧
      (run.sleeps.length : Int) = DefaultRetryConfig.MaxRetries :=
  (GetAssetURLs_retries_exhausted DefaultRetryConfig randMax outcomesAll503 ["g1"]
    (by simp) (by decide)
    (fun _ => by
      show retryableOutcome DefaultRetryConfig (.response 503 none) ∧
        retryableNon2xx DefaultRetryConfig (.response 503 none)
      decide)).2

/-! ### Lemmas on delays -/

theorem wrapInt64_eq (x : Int) (h1 : -(2 ^ 63) ≤ x) (h2 : x < 2 ^ 63) : wrapInt64 x = x := by
  unfold wrapInt64
  have e63 : (2 : Int) ^ 63 = 9223372036854775808 := by norm_num
  have e64 : (2 : Int) ^ 64 = 18446744073709551616 := by norm_num
  rw [e63] at h1 h2 ⊢
  rw [e64]
  omega

theorem wrapInt64_le (x : Int) (h : 0 ≤ x) : wrapInt64 x ≤ x ∧ wrapInt64 x < 2 ^ 63 := by
  unfold wrapInt64
  have e63 : (2 : Int) ^ 63 = 9223372036854775808 := by norm_num
  have e64 : (2 : Int) ^ 64 = 18446744073709551616 := by norm_num
  rw [e63, e64]
  omega

theorem goMin_toNat (n : Nat) : (goMin (n : Int) 30).toNat = min n 30 := by
  unfold goMin
  by_cases h : (n : Int) < 30
  · rw [if_pos h]
    have : n < 30 := by omega
    simp [Nat.min_eq_left (Nat.le_of_lt this)]
  · rw [if_neg h]
    have : 30 ≤ n := by omega
    simp [Nat.min_eq_right this]

theorem nextDelay_exponential (int64N : Int → Int) (cfg : RetryConfig) (n : Nat)
    (hs : cfg.Strategy = BackoffExponential) :
    nextDelay int64N cfg n =
      (if wrapInt64 (cfg.BaseDelay * 2 ^ (min n 30)) > cfg.MaxDelay then cfg.MaxDelay
       else wrapInt64 (cfg.BaseDelay * 2 ^ (min n 30))) := by
  unfold nextDelay
  rw [hs, goMin_toNat]
  simp [BackoffExponential, BackoffConstant, BackoffLinear]

theorem nextDelay_jitter (int64N : Int → Int) (cfg : RetryConfig) (n : Nat)
    (hs : cfg.Strategy = BackoffExponentialWithJitter) :
    nextDelay int64N cfg n =
      (if (if wrapInt64 (cfg.BaseDelay * 2 ^ (min n 30)) > cfg.MaxDelay then cfg.MaxDelay
           else wrapInt64 (cfg.BaseDelay * 2 ^ (min n 30))) ≤ 0 then 0
       else wrapInt64 (int64N (Int.tdiv
          (if wrapInt64 (cfg.BaseDelay * 2 ^ (min n 30)) > cfg.MaxDelay then cfg.MaxDelay
           else wrapInt64 (cfg.BaseDelay * 2 ^ (min n 30))) 1000000 + 1) * Millisecond)) := by
  unfold nextDelay
  rw [hs, goMin_toNat]
  simp [BackoffExponentialWithJitter, BackoffExponential, BackoffConstant, BackoffLinear]

/-! ### Theorems on delays -/

/-- C18: with the exponential strategy, a base delay of ten seconds, a cap of thirty
seconds and attempt 30, the `int64` product `BaseDelay * 2^30` wraps and `nextDelay`
returns a negative duration, not the thirty seconds of
`min(BaseDelay * 2^min(n,30), MaxDelay)`; at attempt 29, and at attempt 30 with the
linear strategy, the same configuration gives the cap of thirty seconds, and with
jitter it gives 0. -/
theorem nextDelay_exponential_overflow :
    configTenSeconds.Strategy = BackoffExponential ∧
    0 ≤ configTenSeconds.BaseDelay ∧ configTenSeconds.BaseDelay < 2 ^ 63 ∧
    0 ≤ configTenSeconds.MaxDelay ∧ configTenSeconds.MaxDelay < 2 ^ 63 ∧
    delayBound configTenSeconds 30 = 30 * Second ∧
    nextDelay (randMax 0) configTenSeconds 30 = -7709325833709551616 ∧
    nextDelay (randMax 0) configTenSeconds 30 ≠ delayBound configTenSeconds 30 ∧
    nextDelay (randMax 0) configTenSeconds 29 = 30 * Second ∧
    nextDelay (randMax 0) configTenSecondsLinear 30 = 30 * Second ∧
    nextDelay (randMax 0) configTenSecondsJitter 30 = 0 := by
  decide

/-- Where the product `BaseDelay * 2^min(n,30)` is below `2^63` the exponential
strategy returns `min(BaseDelay * 2^min(n,30), MaxDelay)`. -/
theorem nextDelay_exponential_of_fit (int64N : Int → Int) (cfg : RetryConfig) (n : Nat)
    (hs : cfg.Strategy = BackoffExponential) (hb : 0 ≤ cfg.BaseDelay)
    (hfit : cfg.BaseDelay * 2 ^ (min n 30) < 2 ^ 63) :
    nextDelay int64N cfg n = delayBound cfg n := by
  have hP : 0 ≤ cfg.BaseDelay * 2 ^ (min n 30) := Int.mul_nonneg hb (by positivity)
  rw [nextDelay_exponential int64N cfg n hs, delayBound,
    wrapInt64_eq _ (by have : (0 : Int) ≤ 2 ^ 63 := by norm_num
                       omega) hfit]
  generalize cfg.BaseDelay * 2 ^ (min n 30) = P
  by_cases h : P > cfg.MaxDelay
  · rw [if_pos h]; omega
  · rw [if_neg h]; omega

/-- C19: for the exponential-with-jitter strategy, every attempt index `n`, every
configuration with non-negative `BaseDelay` and `MaxDelay` and every value the random
source returns, `nextDelay cfg n` lies in `[0, min(BaseDelay * 2^min(n,30), MaxDelay)]`;
under `DefaultRetryConfig` the bounds for `n = 0, 1, 2, 3` are 500 ms, 1 s, 2 s, 4 s. -/
theorem nextDelay_jitter_bounds (int64N : Int → Int) (cfg : RetryConfig) (n : Nat)
    (hs : cfg.Strategy = BackoffExponentialWithJitter) (hb : 0 ≤ cfg.BaseDelay)
    (hm : 0 ≤ cfg.MaxDelay) (hr : validInt64N int64N) :
    (0 ≤ nextDelay int64N cfg n ∧ nextDelay int64N cfg n ≤ delayBound cfg n) ∧
    DefaultRetryConfig.Strategy = BackoffExponentialWithJitter ∧
    delayBound DefaultRetryConfig 0 = 500 * Millisecond ∧
    delayBound DefaultRetryConfig 1 = 1 * Second ∧
    delayBound DefaultRetryConfig 2 = 2 * Second ∧
    delayBound DefaultRetryConfig 3 = 4 * Second := by
  refine ⟨?_, by decide, by decide, by decide, by decide, by decide⟩
  have hP : 0 ≤ cfg.BaseDelay * 2 ^ (min n 30) := Int.mul_nonneg hb (by positivity)
  rw [nextDelay_jitter int64N cfg n hs, delayBound]
  obtain ⟨hW1, hW2⟩ := wrapInt64_le _ hP
  generalize cfg.BaseDelay * 2 ^ (min n 30) = P at hP hW1 hW2 ⊢
  generalize wrapInt64 P = W at hW1 hW2 ⊢
  have e63 : (2 : Int) ^ 63 = 9223372036854775808 := by norm_num
  rw [e63] at hW2
  have hmax : ∀ M : Int, M = (if W > cfg.MaxDelay then cfg.MaxDelay else W) →
      (0 ≤ (if M ≤ 0 then 0 else wrapInt64 (int64N (Int.tdiv M 1000000 + 1) * Millisecond)) ∧
        (if M ≤ 0 then 0 else wrapInt64 (int64N (Int.tdiv M 1000000 + 1) * Millisecond)) ≤
          min P cfg.MaxDelay) := by
    intro M hM
    have hM1 : M ≤ P := by
      rw [hM]; split_ifs <;> omega
    have hM2 : M ≤ cfg.MaxDelay := by
      rw [hM]; split_ifs <;> omega
    have hM3 : M < 9223372036854775808 := by
      rw [hM]; split_ifs <;> omega
    by_cases h0 : M ≤ 0
    · rw [if_pos h0]
      exact ⟨le_refl _, by omega⟩
    · rw [if_neg h0]
      have hMpos : 0 < M := by omega
      have ht : Int.tdiv M 1000000 = M / 1000000 :=
        Int.tdiv_eq_ediv (by omega) (by norm_num)
      rw [ht]
      obtain ⟨hr1, hr2⟩ := hr (M / 1000000 + 1) (by omega)
      have hprod : int64N (M / 1000000 + 1) * Millisecond ≤ M := by
        unfold Millisecond; omega
      have hprod0 : 0 ≤ int64N (M / 1000000 + 1) * Millisecond := by
        unfold Millisecond; omega
      rw [wrapInt64_eq _ (by rw [e63]; omega) (by rw [e63]; omega)]
      exact ⟨hprod0, by omega⟩
  exact hmax _ rfl

theorem nextDelay_jitter_bounds_witness :
    0 ≤ nextDelay (randMax 0) DefaultRetryConfig 2 ∧
    nextDelay (randMax 0) DefaultRetryConfig 2 ≤ delayBound DefaultRetryConfig 2 :=
  (nextDelay_jitter_bounds (randMax 0) DefaultRetryConfig 2 rfl (by decide) (by decide)
    (by
      intro n hn
      unfold randMax
      omega)).1

/-! ### Theorems on content sniffing -/

/-- C20: for every filename and whatever follows the signature, `DetectMIMEType`
returns image/jpeg on bytes starting with FF D8 FF, image/png on the 8-byte PNG
signature, image/gif on `GIF87a` and `GIF89a`; on at least 12 bytes with `ftyp` at
offsets 4..7 that do not start with FF D8 FF it returns video/quicktime when bytes 8..9
are `qt` and video/mp4 otherwise. -/
theorem DetectMIMEType_magic (detectContentType : List Nat → String)
    (typeByExtension : String → String) (tbl : Char → Char) (filename : String)
    (rest : List Nat) (b0 b1 b2 b3 b8 b9 b10 b11 : Nat)
    (hnj : ¬ (b0 = 0xFF ∧ b1 = 0xD8 ∧ b2 = 0xFF)) :
    DetectMIMEType detectContentType typeByExtension tbl
        (0xFF :: 0xD8 :: 0xFF :: rest) filename = "image/jpeg" ∧
    DetectMIMEType detectContentType typeByExtension tbl
        (0x89 :: 0x50 :: 0x4E :: 0x47 :: 0x0D :: 0x0A :: 0x1A :: 0x0A :: rest) filename =
      "image/png" ∧
    DetectMIMEType detectContentType typeByExtension tbl
        (0x47 :: 0x49 :: 0x46 :: 0x38 :: 0x37 :: 0x61 :: rest) filename = "image/gif" ∧
    DetectMIMEType detectContentType typeByExtension tbl
        (0x47 :: 0x49 :: 0x46 :: 0x38 :: 0x39 :: 0x61 :: rest) filename = "image/gif" ∧
    DetectMIMEType detectContentType typeByExtension tbl
        (b0 :: b1 :: b2 :: b3 :: 0x66 :: 0x74 :: 0x79 :: 0x70 :: b8 :: b9 :: b10 :: b11 :: rest)
        filename =
      (if b8 = 0x71 ∧ b9 = 0x74 then "video/quicktime" else "video/mp4") := by
  refine ⟨?_, ?_, ?_, ?_, ?_⟩
  · simp [DetectMIMEType]
  · simp [DetectMIMEType]
  · simp [DetectMIMEType]
  · simp [DetectMIMEType]
  · have hj : ¬ (b0 = 255 ∧ b1 = 216 ∧ b2 = 255) := hnj
    simp [DetectMIMEType, hj]

theorem DetectMIMEType_magic_witness :
    DetectMIMEType (fun _ => "application/octet-stream") (fun _ => "") id
        [0x00, 0x00, 0x00, 0x20, 0x66, 0x74, 0x79, 0x70, 0x69, 0x73, 0x6F, 0x6D] "" =
      "video/mp4" :=
  (DetectMIMEType_magic (fun _ => "application/octet-stream") (fun _ => "") id ""
    [] 0x00 0x00 0x00 0x20 0x69 0x73 0x6F 0x6D (by decide)).2.2.2.2

/-! ### Lemmas on file names -/

theorem utf8ValidRune_toNat (c : Char) : utf8ValidRune c.toNat = true := by
  have h := c.valid
  unfold utf8ValidRune
  simp only [UInt32.isValidChar, Nat.isValidChar] at h
  have e : c.toNat = c.val.toNat := rfl
  rw [e]
  simp only [Bool.or_eq_true, Bool.and_eq_true, decide_eq_true_eq]
  omega

theorem safeChar_repl (c : Char) : safeChar (repl c) := by
  unfold repl
  split_ifs with h1 h2
  · decide
  · decide
  · push_neg at h2
    exact ⟨h1, by omega, h2.2.1⟩

theorem repl_of_safeChar (c : Char) (h : safeChar c) : repl c = c := by
  unfold repl
  obtain ⟨h1, h2, h3⟩ := h
  rw [if_neg h1, if_neg]
  rintro (h | h | h)
  · exact h2 h
  · exact h3 h
  · rw [utf8ValidRune_toNat] at h
    exact Bool.noConfusion h

theorem trimDots_eq_rdropWhile (l : List Char) :
    trimDots l = List.rdropWhile isDotOrSpace (l.dropWhile isDotOrSpace) := rfl

theorem mem_of_mem_trimDots (l : List Char) (c : Char) (h : c ∈ trimDots l) : c ∈ l := by
  rw [trimDots_eq_rdropWhile] at h
  have h1 := (List.rdropWhile_prefix isDotOrSpace (l := l.dropWhile isDotOrSpace)).subset h
  exact (List.dropWhile_sublist isDotOrSpace).subset h1

theorem head?_dropWhile_not {α : Type} (p : α → Bool) (l : List α) (a : α)
    (h : (l.dropWhile p).head? = some a) : p a = false := by
  induction l with
  | nil => simp at h
  | cons x xs ih =>
    by_cases hx : p x = true
    · rw [List.dropWhile_cons_of_pos hx] at h
      exact ih h
    · rw [List.dropWhile_cons_of_neg hx] at h
      simp only [List.head?_cons, Option.some.injEq] at h
      subst h
      simpa using hx

theorem trimDots_head (l : List Char) (a : Char) (h : (trimDots l).head? = some a) :
    isDotOrSpace a = false := by
  rw [trimDots_eq_rdropWhile] at h
  obtain ⟨t, ht⟩ := List.rdropWhile_prefix isDotOrSpace (l := l.dropWhile isDotOrSpace)
  cases hr : List.rdropWhile isDotOrSpace (l.dropWhile isDotOrSpace) with
  | nil => rw [hr] at h; simp at h
  | cons x xs =>
    rw [hr] at h ht
    simp only [List.head?_cons, Option.some.injEq] at h
    subst h
    apply head?_dropWhile_not isDotOrSpace l
    rw [← ht]
    rfl

theorem trimDots_getLast (l : List Char) (a : Char) (h : (trimDots l).getLast? = some a) :
    isDotOrSpace a = false := by
  unfold trimDots at h
  rw [List.getLast?_reverse] at h
  exact head?_dropWhile_not isDotOrSpace _ a h

theorem trimDots_eq_self (l : List Char)
    (hh : ∀ a, l.head? = some a → isDotOrSpace a = false)
    (hl : ∀ a, l.getLast? = some a → isDotOrSpace a = false) : trimDots l = l := by
  have h1 : l.dropWhile isDotOrSpace = l := by
    cases l with
    | nil => rfl
    | cons x xs =>
      have := hh x rfl
      rw [List.dropWhile_cons_of_neg (by simp [this])]
  rw [trimDots_eq_rdropWhile, h1, List.rdropWhile_eq_self_iff]
  intro hne
  have := hl (l.getLast hne) (List.getLast?_eq_getLast _ hne)
  simp [this]

theorem trimDots_truncated (pre : List Char) :
    trimDots (pre ++ "_truncated".data) =
      pre.dropWhile isDotOrSpace ++ "_truncated".data := by
  have h1 : (pre ++ "_truncated".data).dropWhile isDotOrSpace =
      pre.dropWhile isDotOrSpace ++ "_truncated".data := by
    rw [List.dropWhile_append]
    split_ifs with h
    · have : pre.dropWhile isDotOrSpace = [] := by simpa using h
      rw [this]
      rfl
    · rfl
  rw [trimDots_eq_rdropWhile, h1]
  have e : "_truncated".data = "_truncate".data ++ ['d'] := rfl
  rw [e, ← List.append_assoc]
  exact List.rdropWhile_concat_neg _ _ 'd' (by decide)

theorem safeChar_out (s : String) :
    ∀ c ∈ (if (s.data.map repl).length > 200 then
        (s.data.map repl).take 195 ++ "_truncated".data else s.data.map repl),
      safeChar c := by
  intro c hc
  have hmap : ∀ c ∈ s.data.map repl, safeChar c := by
    intro c hc
    obtain ⟨a, _, rfl⟩ := List.mem_map.mp hc
    exact safeChar_repl a
  split_ifs at hc
  · rcases List.mem_append.mp hc with h | h
    · exact hmap c (List.mem_of_mem_take h)
    · have : ∀ c ∈ "_truncated".data, safeChar c := by decide
      exact this c h
  · exact hmap c hc

theorem utf8ByteSize_go_ascii (l : List Char) (h : ∀ c ∈ l, c.toNat < 128) :
    String.utf8ByteSize.go l = l.length := by
  induction l with
  | nil => rfl
  | cons c cs ih =>
    have hc : c.toNat < 128 := h c (List.mem_cons_self _ _)
    have h1 : c.utf8Size = 1 := by
      have : c.val ≤ UInt32.ofNatCore 0x7F (by decide) := by
        show c.val.toNat ≤ 127
        have e : c.toNat = c.val.toNat := rfl
        omega
      exact if_pos this
    show String.utf8ByteSize.go cs + c.utf8Size = cs.length + 1
    rw [ih (fun a ha => h a (List.mem_cons_of_mem _ ha)), h1]

theorem repl_ascii (c : Char) (h : c.toNat < 128) : (repl c).toNat < 128 := by
  unfold repl
  split_ifs
  · decide
  · decide
  · exact h

/-! ### Theorems on file names -/

/-- C29 as stated fails: for the input of 201 letters `é` the result of `sanitize` has
400 bytes, more than 210. -/
theorem sanitize_truncated_bytes_counterexample :
    longAccented.length = 201 ∧ (sanitize longAccented).utf8ByteSize = 400 ∧
    ¬ (sanitize longAccented).utf8ByteSize ≤ 210 := by
  set_option maxRecDepth 100000 in decide

/-- C29 (amended): for every input longer than 200 characters, `sanitize` returns a
string that ends with `_truncated` and has at most 205 characters; its length in bytes
is at most 210 when the input is ASCII. -/
theorem sanitize_truncated (s : String) (hlong : s.length > 200) :
    (∃ pre, (sanitize s).data = pre ++ "_truncated".data) ∧
    (sanitize s).length ≤ 205 ∧
    ((∀ c ∈ s.data, c.toNat < 128) → (sanitize s).utf8ByteSize ≤ 210) := by
  have hlen : (s.data.map repl).length > 200 := by
    rw [List.length_map]; exact hlong
  have hdata : (sanitize s).data =
      ((s.data.map repl).take 195).dropWhile isDotOrSpace ++ "_truncated".data := by
    unfold sanitize
    simp only [if_pos hlen]
    exact trimDots_truncated _
  have hpre : (((s.data.map repl).take 195).dropWhile isDotOrSpace).length ≤ 195 := by
    have h1 := (List.dropWhile_sublist isDotOrSpace
      (l := (s.data.map repl).take 195)).length_le
    have h2 : ((s.data.map repl).take 195).length ≤ 195 := by
      rw [List.length_take]; omega
    omega
  have hl : (sanitize s).length ≤ 205 := by
    show (sanitize s).data.length ≤ 205
    rw [hdata, List.length_append]
    have : "_truncated".data.length = 10 := rfl
    omega
  refine ⟨⟨_, hdata⟩, hl, ?_⟩
  intro hascii
  have hres : ∀ c ∈ (sanitize s).data, c.toNat < 128 := by
    intro c hc
    rw [hdata] at hc
    rcases List.mem_append.mp hc with h | h
    · have h1 := (List.dropWhile_sublist isDotOrSpace).subset h
      have h2 := List.mem_of_mem_take h1
      obtain ⟨a, ha, rfl⟩ := List.mem_map.mp h2
      exact repl_ascii a (hascii a ha)
    · have : ∀ c ∈ "_truncated".data, c.toNat < 128 := by decide
      exact this c h
  have hb : (sanitize s).utf8ByteSize = (sanitize s).data.length :=
    utf8ByteSize_go_ascii _ hres
  rw [hb]
  have : (sanitize s).data.length ≤ 205 := hl
  omega

theorem sanitize_truncated_witness :
    (∃ pre, (sanitize longAccented).data = pre ++ "_truncated".data) ∧
    (sanitize longAccented).length ≤ 205 :=
  have h := sanitize_truncated longAccented
    (by set_option maxRecDepth 100000 in decide)
  ⟨h.1, h.2.1⟩

/-- C30: for every input `s` the result of `sanitize` contains none of the forbidden
characters and no control character and neither begins nor ends with a dot or a space;
an input `t` of at most 200 characters that already satisfies these conditions is
returned unchanged. -/
theorem sanitize_clean (s t : String) (hlen : t.length ≤ 200) (hclean : cleanName t.data) :
    cleanName (sanitize s).data ∧ sanitize t = t := by
  constructor
  · have hd : (sanitize s).data = trimDots (if (s.data.map repl).length > 200 then
        (s.data.map repl).take 195 ++ "_truncated".data else s.data.map repl) := rfl
    rw [hd]
    refine ⟨fun c hc => safeChar_out s c (mem_of_mem_trimDots _ c hc), ?_, ?_, ?_, ?_⟩
    · intro h; exact absurd (trimDots_head _ _ h) (by decide)
    · intro h; exact absurd (trimDots_head _ _ h) (by decide)
    · intro h; exact absurd (trimDots_getLast _ _ h) (by decide)
    · intro h; exact absurd (trimDots_getLast _ _ h) (by decide)
  · obtain ⟨hsafe, hh1, hh2, hl1, hl2⟩ := hclean
    have hmap : t.data.map repl = t.data := by
      rw [List.map_congr_left (fun c hc => repl_of_safeChar c (hsafe c hc)), List.map_id']
    have hnot : ¬ (t.data.length > 200) := by
      have : t.data.length = t.length := rfl
      omega
    have hne : ∀ a : Char, a ≠ '.' → a ≠ ' ' → isDotOrSpace a = false := by
      intro a h1 h2
      simp [isDotOrSpace, h1, h2]
    unfold sanitize
    simp only [hmap, if_neg hnot]
    rw [trimDots_eq_self t.data
      (fun a ha => hne a (fun e => hh1 (e ▸ ha)) (fun e => hh2 (e ▸ ha)))
      (fun a ha => hne a (fun e => hl1 (e ▸ ha)) (fun e => hl2 (e ▸ ha)))]

theorem sanitize_clean_witness :
    cleanName (sanitize "  .photo<>:\"/?*.  ").data ∧ sanitize "my_photo_123" = "my_photo_123" :=
  sanitize_clean "  .photo<>:\"/?*.  " "my_photo_123" (by decide)
    ⟨by decide, by decide, by decide, by decide, by decide⟩

/-- C26 as stated fails: with index 0 and the custom file name `vacation` the base name
is `G1_vacation`, without the index prefix `1_`. -/
theorem downloadBaseName_custom_counterexample :
    downloadBaseName testPhotoCaption (some 0) (some "vacation") = "G1_vacation" ∧
    downloadBaseName testPhotoCaption (some 0) (some "vacation") ≠
      fmtD (0 + 1) ++ "_" ++ testPhotoCaption.PhotoGUID ++ "_" ++ sanitize "vacation" := by
  decide

/-- C26 (amended): a non-empty custom file name `f` gives the base name
`{guid}_{sanitize f}`, with or without index and caption; without one (absent or empty)
the base name is `{i+1}_` (omitted exactly when the index is absent) followed by the
guid and by `_{sanitize c}` (omitted exactly when the caption is absent or empty), for
every index below the largest `int`. -/
theorem downloadBaseName_contract (photo : Image) (index : Option Int)
    (customFilename : Option String)
    (hidx : ∀ i, index = some i → -(2 ^ 63) ≤ i + 1 ∧ i + 1 < 2 ^ 63) :
    (∀ f, customFilename = some f → f ≠ "" →
      downloadBaseName photo index customFilename = photo.PhotoGUID ++ "_" ++ sanitize f) ∧
    ((customFilename = none ∨ customFilename = some "") →
      downloadBaseName photo index customFilename =
        indexPrefix index ++ photo.PhotoGUID ++ captionSuffix photo.Caption) := by
  constructor
  · intro f hf hne
    unfold downloadBaseName nonEmptyString
    simp [hf, hne]
  · intro hc
    have hcust : nonEmptyString customFilename = none := by
      rcases hc with h | h <;> simp [nonEmptyString, h]
    unfold downloadBaseName
    simp only [hcust]
    cases hi : index with
    | none =>
      cases hcap : photo.Caption with
      | none => simp [nonEmptyString, indexPrefix, captionSuffix]
      | some c =>
        by_cases hce : c = ""
        · simp [nonEmptyString, indexPrefix, captionSuffix, hce]
        · simp [nonEmptyString, indexPrefix, captionSuffix, hce, String.append_assoc]
    | some i =>
      have hw : wrapInt64 (i + 1) = i + 1 :=
        wrapInt64_eq _ (hidx i hi).1 (hidx i hi).2
      cases hcap : photo.Caption with
      | none => simp [nonEmptyString, indexPrefix, captionSuffix, hw]
      | some c =>
        by_cases hce : c = ""
        · simp [nonEmptyString, indexPrefix, captionSuffix, hce, hw]
        · simp [nonEmptyString, indexPrefix, captionSuffix, hce, hw, String.append_assoc]

theorem downloadBaseName_contract_witness :
    downloadBaseName testPhotoCaption (some 2) none =
      indexPrefix (some 2) ++ testPhotoCaption.PhotoGUID ++
        captionSuffix testPhotoCaption.Caption ∧
    downloadBaseName testPhotoCaption (some 2) none = "3_G1_Sunset_ beach" :=
  ⟨(downloadBaseName_contract testPhotoCaption (some 2) none
      (by
        intro i hi
        have : i = 2 := by
          injection hi with h; exact h.symm
        subst this
        decide)).2 (Or.inl rfl),
    by decide⟩

/-! ### More theorems on content sniffing -/

/-- C21: on bytes with `ftyp` at offsets 4..7 and `heic` (respectively `heif`) at
offsets 8..11 `DetectMIMEType` returns video/mp4 and `GetExtensionForContent` returns
`.mp4`, not image/heic and `.heic` (respectively image/heif and `.heif`): the `ftyp`
test that precedes the HEIC test returns first. -/
theorem DetectMIMEType_heic_is_mp4 :
    DetectMIMEType (fun _ => "application/octet-stream") (fun _ => "") id heicBytes "" =
      "video/mp4" ∧
    DetectMIMEType (fun _ => "application/octet-stream") (fun _ => "") id heifBytes "" =
      "video/mp4" ∧
    GetExtensionForContent (fun _ => "application/octet-stream") (fun _ => "") id
      heicBytes "" = ".mp4" ∧
    GetExtensionForContent (fun _ => "application/octet-stream") (fun _ => "") id
      heifBytes "" = ".mp4" := by
  decide

theorem getD_mapGet_cons (k v m d : String) (rest : List (String × String)) :
    (mapGet ((k, v) :: rest) m).getD d = if m = k then v else (mapGet rest m).getD d := by
  show (if k = m then some v else mapGet rest m).getD d = _
  by_cases h : k = m
  · rw [if_pos h, if_pos h.symm]; rfl
  · rw [if_neg h, if_neg (fun e => h e.symm)]

/-- C22: `ExtensionFromMIME` is the closed table image/jpeg, image/png, image/heic,
image/heif, video/mp4, video/quicktime, image/gif to `.jpg`, `.png`, `.heic`, `.heif`,
`.mp4`, `.mov`, `.gif`, every other string giving `.jpg`; so `GetExtensionForContent`
returns one of these seven extensions for every byte sequence and filename. -/
theorem ExtensionFromMIME_table (detectContentType : List Nat → String)
    (typeByExtension : String → String) (tbl : Char → Char) (b : List Nat)
    (filename mt : String) :
    ExtensionFromMIME mt = (mapGet extensionTable mt).getD ".jpg" ∧
    ExtensionFromMIME "image/jpeg" = ".jpg" ∧ ExtensionFromMIME "image/png" = ".png" ∧
    ExtensionFromMIME "image/heic" = ".heic" ∧ ExtensionFromMIME "image/heif" = ".heif" ∧
    ExtensionFromMIME "video/mp4" = ".mp4" ∧ ExtensionFromMIME "video/quicktime" = ".mov" ∧
    ExtensionFromMIME "image/gif" = ".gif" ∧ ExtensionFromMIME "unknown/type" = ".jpg" ∧
    GetExtensionForContent detectContentType typeByExtension tbl b filename ∈
      [".jpg", ".png", ".heic", ".heif", ".mp4", ".mov", ".gif"] := by
  have htable : ∀ m : String, ExtensionFromMIME m = (mapGet extensionTable m).getD ".jpg" := by
    intro m
    unfold ExtensionFromMIME extensionTable
    rw [getD_mapGet_cons, getD_mapGet_cons, getD_mapGet_cons, getD_mapGet_cons,
      getD_mapGet_cons, getD_mapGet_cons, getD_mapGet_cons]
    rfl
  have hmem : ∀ m : String, ExtensionFromMIME m ∈
      [".jpg", ".png", ".heic", ".heif", ".mp4", ".mov", ".gif"] := by
    intro m
    unfold ExtensionFromMIME
    split_ifs <;> simp
  exact ⟨htable mt, by decide, by decide, by decide, by decide, by decide, by decide,
    by decide, by decide, hmem _⟩

/-! ### More theorems on enrichment -/

theorem enrichDerivative_URL (allURLs : List (String × String)) (guid : String)
    (d : Derivative) :
    (enrichDerivative allURLs guid d).URL = specEnrichedURL allURLs guid d := by
  unfold enrichDerivative fillGuid fillChecksum specEnrichedURL
  cases hg : mapGet allURLs guid <;> cases hu : d.URL <;>
    cases hc : mapGet allURLs d.Checksum <;> simp [hu]

/-- On photos that each hold a map of their own, the URL of every derivative `d` of
every photo `p` after `EnrichPhotosWithURLs` is the URL `d` had if it was set, otherwise
`allURLs[d.Checksum]` if the checksum is a key, otherwise `allURLs[p.PhotoGUID]` if the
GUID is a key, otherwise unset. -/
theorem EnrichPhotosWithURLs_owned_urls (photos : List Image)
    (allURLs : List (String × String)) (hwf : mapsWellFormed photos)
    (i : Nat) (p : Image) (hp : photos[i]? = some p) :
    (∃ p', (EnrichPhotosWithURLs photos allURLs)[i]? = some p' ∧
      ∀ k d, mapGet p.Derivatives k = some d →
        ∃ d', mapGet p'.Derivatives k = some d' ∧
          d'.URL = specEnrichedURL allURLs p.PhotoGUID d) ∧
    (EnrichPhotosWithURLs photos allURLs)[i]? = (EnrichPhotosWithURLs [p] allURLs)[0]? := by
  have hmem : p ∈ photos := List.getElem?_mem hp
  have hget : (EnrichPhotosWithURLs photos allURLs)[i]? = some (enrichPhoto allURLs p) := by
    unfold EnrichPhotosWithURLs
    rw [List.getElem?_map, hp]; rfl
  refine ⟨⟨enrichPhoto allURLs p, hget, ?_⟩, ?_⟩
  · intro k d hk
    refine ⟨enrichDerivative allURLs p.PhotoGUID d, ?_, enrichDerivative_URL _ _ _⟩
    rw [enrichPhoto_eq allURLs p (hwf p hmem)]
    show mapGet (p.Derivatives.map _) k = _
    rw [mapGet_map, hk]; rfl
  · rw [hget]; rfl

/-! ### Lemmas on decimal numerals -/

theorem digitChar_decimal :
    ∀ d, d < 10 → (Nat.digitChar d).isDigit = true ∧ (Nat.digitChar d).toNat - 48 = d := by
  decide

theorem toDigitsCore_isDigit (fuel : Nat) :
    ∀ (n : Nat) (ds : List Char), n < fuel → (∀ c ∈ ds, c.isDigit = true) →
      ∀ c ∈ Nat.toDigitsCore 10 fuel n ds, c.isDigit = true := by
  induction fuel with
  | zero => intro n ds h; omega
  | succ fuel ih =>
    intro n ds hn hds
    have hd := (digitChar_decimal (n % 10) (Nat.mod_lt _ (by decide))).1
    have hds' : ∀ c ∈ Nat.digitChar (n % 10) :: ds, c.isDigit = true := by
      intro c hc
      rcases List.mem_cons.mp hc with rfl | h
      · exact hd
      · exact hds c h
    simp only [Nat.toDigitsCore]
    split_ifs with h0
    · exact hds'
    · exact ih (n / 10) _ (by omega) hds'

theorem toDigitsCore_value (fuel : Nat) :
    ∀ (n : Nat) (ds : List Char), n < fuel →
      (Nat.toDigitsCore 10 fuel n ds).foldl (fun acc c => acc * 10 + (c.toNat - 48)) 0 =
        ds.foldl (fun acc c => acc * 10 + (c.toNat - 48)) n := by
  induction fuel with
  | zero => intro n ds h; omega
  | succ fuel ih =>
    intro n ds hn
    have hd := (digitChar_decimal (n % 10) (Nat.mod_lt _ (by decide))).2
    simp only [Nat.toDigitsCore]
    split_ifs with h0
    · rw [List.foldl_cons, hd]
      have : 0 * 10 + n % 10 = n := by omega
      rw [this]
    · rw [ih (n / 10) _ (by omega), List.foldl_cons, hd]
      have : n / 10 * 10 + n % 10 = n := by omega
      rw [this]

theorem toDigitsCore_ne_nil (fuel : Nat) :
    ∀ (n : Nat) (ds : List Char), n < fuel → Nat.toDigitsCore 10 fuel n ds ≠ [] := by
  induction fuel with
  | zero => intro n ds h; omega
  | succ fuel ih =>
    intro n ds hn
    simp only [Nat.toDigitsCore]
    split_ifs with h0
    · exact List.cons_ne_nil _ _
    · exact ih (n / 10) _ (by omega)

theorem parseUint_repr (n bitSize : Nat) (h : n < 2 ^ bitSize) :
    parseUint (Nat.repr n) bitSize = some n := by
  have hdata : (Nat.repr n).data = Nat.toDigitsCore 10 (n + 1) n [] := rfl
  unfold parseUint
  rw [hdata]
  have h1 := toDigitsCore_ne_nil (n + 1) n [] (by omega)
  have h2 : (Nat.toDigitsCore 10 (n + 1) n []).all Char.isDigit = true := by
    rw [List.all_eq_true]
    exact toDigitsCore_isDigit (n + 1) n [] (by omega)
      (fun c hc => absurd hc (List.not_mem_nil c))
  have h3 := toDigitsCore_value (n + 1) n [] (by omega)
  simp only [List.foldl_nil] at h3
  rw [if_neg h1, if_pos h2]
  simp only [h3, if_pos h]

theorem parseUint_not_numeric (s : String) (bitSize : Nat) (h : ¬ isNumeric s) :
    parseUint s bitSize = none := by
  unfold parseUint
  unfold isNumeric at h
  by_cases h1 : s.data = []
  · rw [if_pos h1]
  · rw [if_neg h1, if_neg]
    intro h2
    exact h ⟨h1, h2⟩

theorem repr_ne_empty (n : Nat) : Nat.repr n ≠ "" := by
  intro h
  have hdata : (Nat.repr n).data = Nat.toDigitsCore 10 (n + 1) n [] := rfl
  rw [h] at hdata
  exact toDigitsCore_ne_nil (n + 1) n [] (by omega) hdata.symm

/-! ### Theorems on decoding -/

/-- C24: for every `n` up to 4294967295 the JSON number `n` and the JSON string of the
decimal digits of `n` both decode to `n` in a fresh `Uint32OrString`, and likewise for
`m` below 2^64 in a fresh `Uint64OrString`; `null`, the empty string and every
non-numeric string give no error and leave the fresh value 0; `5` and `"5"` give 5. -/
theorem UnmarshalJSON_number_or_string (n m : Nat) (s : String)
    (hn : n ≤ 4294967295) (hm : m < 2 ^ 64) (hs : ¬ isNumeric s) :
    Uint32OrString.UnmarshalJSON 0 (.number (Nat.repr n)) = .ok n ∧
    Uint32OrString.UnmarshalJSON 0 (.str (Nat.repr n)) = .ok n ∧
    Uint64OrString.UnmarshalJSON 0 (.number (Nat.repr m)) = .ok m ∧
    Uint64OrString.UnmarshalJSON 0 (.str (Nat.repr m)) = .ok m ∧
    Uint32OrString.UnmarshalJSON 0 .null = .ok 0 ∧
    Uint64OrString.UnmarshalJSON 0 .null = .ok 0 ∧
    Uint32OrString.UnmarshalJSON 0 (.str "") = .ok 0 ∧
    Uint64OrString.UnmarshalJSON 0 (.str "") = .ok 0 ∧
    Uint32OrString.UnmarshalJSON 0 (.str s) = .ok 0 ∧
    Uint64OrString.UnmarshalJSON 0 (.str s) = .ok 0 ∧
    Uint32OrString.UnmarshalJSON 0 (.number "5") = .ok 5 ∧
    Uint32OrString.UnmarshalJSON 0 (.str "5") = .ok 5 := by
  have hn32 : n < 2 ^ 32 := by
    have : (2 : Nat) ^ 32 = 4294967296 := by norm_num
    omega
  have hn64 : n < 2 ^ 64 := by
    have : (2 : Nat) ^ 64 = 18446744073709551616 := by norm_num
    omega
  have hmod : n % 2 ^ 32 = n := Nat.mod_eq_of_lt hn32
  have hlt : n < 4294967296 := by omega
  refine ⟨?_, ?_, ?_, ?_, by decide, by decide, by decide, by decide, ?_, ?_,
    by decide, by decide⟩
  · simp [Uint32OrString.UnmarshalJSON, jsonUnmarshalUint64, parseUint_repr n 64 hn64, hmod, hlt]
  · simp [Uint32OrString.UnmarshalJSON, jsonUnmarshalUint64, jsonUnmarshalString,
      repr_ne_empty, parseUint_repr n 32 hn32, hmod, hlt]
  · simp [Uint64OrString.UnmarshalJSON, jsonUnmarshalUint64, parseUint_repr m 64 hm]
  · simp [Uint64OrString.UnmarshalJSON, jsonUnmarshalUint64, jsonUnmarshalString,
      repr_ne_empty, parseUint_repr m 64 hm]
  · simp [Uint32OrString.UnmarshalJSON, jsonUnmarshalUint64, jsonUnmarshalString,
      parseUint_not_numeric s 32 hs]
  · simp [Uint64OrString.UnmarshalJSON, jsonUnmarshalUint64, jsonUnmarshalString,
      parseUint_not_numeric s 64 hs]

theorem UnmarshalJSON_number_or_string_witness :
    Uint32OrString.UnmarshalJSON 0 (.number (Nat.repr 4294967295)) = .ok 4294967295 ∧
    Uint64OrString.UnmarshalJSON 0 (.str (Nat.repr 9223372036854775807)) =
      .ok 9223372036854775807 ∧
    Uint32OrString.UnmarshalJSON 0 (.str "12a") = .ok 0 :=
  have h := UnmarshalJSON_number_or_string 4294967295 9223372036854775807 "12a"
    (by decide) (by norm_num) (by decide)
  ⟨h.1, h.2.2.2.1, h.2.2.2.2.2.2.2.2.1⟩

/-- C23: for every decoded 2xx metadata response `getAPIResponse` fails with the
missing-required-field error exactly when `streamName` is absent or empty, and succeeds
otherwise; when it succeeds the returned `StreamName` is non-empty and is the decoded
one, absent `userFirstName`, `userLastName`, `streamCtag` become the empty string,
absent `itemsReturned` becomes 0, absent `locations` becomes `null`, and the photos are
the decoded list. -/
theorem getAPIResponse_streamName (status : Int) (api : ApiResponse)
    (h200 : 200 ≤ status) (h300 : status < 300) :
    (getAPIResponse true (.response status (some api)) = .error .missingStreamName ↔
      (api.StreamName = none ∨ api.StreamName = some "")) ∧
    ((∃ r, getAPIResponse true (.response status (some api)) = .ok r) ↔
      ∃ name, api.StreamName = some name ∧ name ≠ "") ∧
    (∀ photos md, getAPIResponse true (.response status (some api)) = .ok (photos, md) →
      md.StreamName ≠ "" ∧ api.StreamName = some md.StreamName ∧
      md.UserFirstName = api.UserFirstName.getD "" ∧
      md.UserLastName = api.UserLastName.getD "" ∧
      md.StreamCTag = api.StreamCTag.getD "" ∧
      md.ItemsReturned = api.ItemsReturned.getD 0 ∧
      md.Locations = api.Locations.getD "null" ∧
      photos = api.Photos) := by
  have hnon : ¬ (status < 200 ∨ status ≥ 300) := by omega
  cases hs : api.StreamName with
  | none =>
    have hr : getAPIResponse true (.response status (some api)) =
        .error .missingStreamName := by
      simp [getAPIResponse, hnon, hs]
    rw [hr]
    refine ⟨by simp, ?_, ?_⟩
    · constructor
      · rintro ⟨r, h⟩; exact Except.noConfusion h
      · rintro ⟨name, h, _⟩; exact Option.noConfusion h
    · intro photos md h; exact Except.noConfusion h
  | some name =>
    by_cases hne : name = ""
    · have hr : getAPIResponse true (.response status (some api)) =
          .error .missingStreamName := by
        simp [getAPIResponse, hnon, hs, hne]
      rw [hr]
      refine ⟨by simp [hne], ?_, ?_⟩
      · constructor
        · rintro ⟨r, h⟩; exact Except.noConfusion h
        · rintro ⟨n', h, hn'⟩
          injection h with h
          exact absurd (h ▸ hne) hn'
      · intro photos md h; exact Except.noConfusion h
    · have hr : getAPIResponse true (.response status (some api)) =
          .ok (api.Photos,
            { StreamName := name,
              UserFirstName := derefOr api.UserFirstName "",
              UserLastName := derefOr api.UserLastName "",
              StreamCTag := derefOr api.StreamCTag "",
              ItemsReturned := api.ItemsReturned.getD 0,
              Locations := api.Locations.getD "null" }) := by
        simp only [getAPIResponse, hnon, hs, hne, if_false, Bool.true_eq_false]
        cases api.ItemsReturned <;> cases api.Locations <;> rfl
      rw [hr]
      have hderef : ∀ p : Option String, derefOr p "" = p.getD "" := by
        intro p; cases p <;> rfl
      refine ⟨?_, ?_, ?_⟩
      · constructor
        · intro h; exact Except.noConfusion h
        · rintro (h | h)
          · exact Option.noConfusion h
          · injection h with h; exact absurd h hne
      · exact ⟨fun _ => ⟨name, rfl, hne⟩, fun _ => ⟨_, rfl⟩⟩
      · intro photos md h
        injection h with h
        injection h with h1 h2
        subst h1 h2
        exact ⟨hne, rfl, hderef _, hderef _, hderef _, rfl, rfl, rfl⟩

theorem getAPIResponse_streamName_witness :
    (∃ r, getAPIResponse true (.response 200 (some testApiResponse)) = .ok r) ↔
      ∃ name, testApiResponse.StreamName = some name ∧ name ≠ "" :=
  (getAPIResponse_streamName 200 testApiResponse (by decide) (by decide)).2.1

/-- C25: `GetRedirectedBaseURL`, given a probe response: with status 330 and a body
whose `X-Apple-MMe-Host` is a non-empty string `h` it returns
`https://` ++ h ++ `/` ++ token ++ `/sharedstreams/`; with status 330 and that field
absent, empty or not a string it returns the base URL unchanged; with any other status
it returns the base URL unchanged whatever the body. -/
theorem GetRedirectedBaseURL_cases (baseURL token h : String)
    (withHost withoutHost : List (String × JsonAny)) (status : Int)
    (body : Option (List (String × JsonAny)))
    (hhost : mapGet withHost "X-Apple-MMe-Host" = some (.str h)) (hne : h ≠ "")
    (hnone : mapGet withoutHost "X-Apple-MMe-Host" = none ∨
      mapGet withoutHost "X-Apple-MMe-Host" = some (.str "") ∨
      mapGet withoutHost "X-Apple-MMe-Host" = some .nonString)
    (hstatus : status ≠ 330) :
    GetRedirectedBaseURL true (.response 330 (some withHost)) baseURL token =
      .ok ("https://" ++ h ++ "/" ++ token ++ "/sharedstreams/") ∧
    GetRedirectedBaseURL true (.response 330 (some withoutHost)) baseURL token =
      .ok baseURL ∧
    GetRedirectedBaseURL true (.response status body) baseURL token = .ok baseURL := by
  refine ⟨?_, ?_, ?_⟩
  · simp [GetRedirectedBaseURL, hhost, hne]
  · rcases hnone with h1 | h1 | h1 <;> simp [GetRedirectedBaseURL, h1]
  · simp [GetRedirectedBaseURL, hstatus]

theorem GetRedirectedBaseURL_cases_witness :
    GetRedirectedBaseURL true (.response 330 (some testRedirectBody))
        "https://p01-sharedstreams.icloud.com/0tok/sharedstreams/" "0tok" =
      .ok ("https://" ++ "p42-sharedstreams.icloud.com" ++ "/" ++ "0tok" ++
        "/sharedstreams/") ∧
    GetRedirectedBaseURL true (.response 330 (some []))
        "https://p01-sharedstreams.icloud.com/0tok/sharedstreams/" "0tok" =
      .ok "https://p01-sharedstreams.icloud.com/0tok/sharedstreams/" ∧
    GetRedirectedBaseURL true (.response 200 none)
        "https://p01-sharedstreams.icloud.com/0tok/sharedstreams/" "0tok" =
      .ok "https://p01-sharedstreams.icloud.com/0tok/sharedstreams/" :=
  GetRedirectedBaseURL_cases "https://p01-sharedstreams.icloud.com/0tok/sharedstreams/"
    "0tok" "p42-sharedstreams.icloud.com" testRedirectBody [] 200 none
    (by decide) (by decide) (Or.inl rfl) (by decide)

/-! ### Lemmas and theorems on the orchestrator -/

theorem rangeUpdate_checksumBody_nil (m : List (String × Derivative)) :
    rangeUpdate m (checksumBody []) = m := by
  unfold rangeUpdate
  have hstep : ∀ (acc : List (String × Derivative)) (k : String),
      (match mapGet acc k with
        | some d => checksumBody [] acc k d
        | none => acc) = acc := by
    intro acc k
    cases mapGet acc k with
    | none => rfl
    | some d =>
      show checksumBody [] acc k d = acc
      unfold checksumBody
      split_ifs <;> rfl
  exact foldl_invariant _ (fun acc => acc = m) (mapKeys m)
    (fun acc k _ hacc => by rw [hstep]; exact hacc) m rfl

theorem EnrichPhotosWithURLs_nil (photos : List Image) :
    EnrichPhotosWithURLs photos [] = photos := by
  unfold EnrichPhotosWithURLs
  have : ∀ p : Image, enrichPhoto [] p = p := by
    intro p
    unfold enrichPhoto
    simp only [rangeUpdate_checksumBody_nil, mapGet]
  rw [List.map_congr_left (fun p _ => this p), List.map_id']

/-- C27: in `GetICloudPhotosWithClient`, once the token is valid and the redirect probe
and the metadata fetch have succeeded, the call succeeds with the decoded metadata
whatever `GetAssetURLs` does; and when `GetAssetURLs` returns an error or an empty map,
the photos of the result are the decoded photos, in their order and with every
derivative as decoded. -/
theorem GetICloudPhotosWithClient_asset_failure (newRequestOk : String → Bool)
    (probe : ProbeOutcome) (webstream : WebstreamOutcome) (rand : Nat → Int → Int)
    (assets : Nat → Outcome) (token base redirected : String)
    (photos : List Image) (md : Metadata)
    (hbase : GetBaseURL token = .ok base)
    (hredirect : GetRedirectedBaseURL (newRequestOk (base ++ "webstream")) probe base
      token = .ok redirected)
    (hmeta : getAPIResponse (newRequestOk (redirected ++ "webstream")) webstream =
      .ok (photos, md)) :
    (∃ enriched, GetICloudPhotosWithClient newRequestOk probe webstream rand assets token =
      .ok { Metadata := md, Photos := enriched }) ∧
    (∀ run, GetAssetURLs none (newRequestOk (redirected ++ "webasseturls")) rand assets
        (photos.map (fun p => p.PhotoGUID)) = some run →
      (run.result = .ok [] ∨ ∃ e, run.result = .error e) →
      GetICloudPhotosWithClient newRequestOk probe webstream rand assets token =
        .ok { Metadata := md, Photos := photos }) := by
  constructor
  · unfold GetICloudPhotosWithClient
    simp only [hbase, hredirect, hmeta]
    exact ⟨_, rfl⟩
  · intro run hrun hres
    unfold GetICloudPhotosWithClient
    simp only [hbase, hredirect, hmeta, hrun]
    rcases hres with h | ⟨e, h⟩
    · simp only [h, EnrichPhotosWithURLs_nil]
    · simp only [h, EnrichPhotosWithURLs_nil]

theorem GetICloudPhotosWithClient_asset_failure_witness :
    GetICloudPhotosWithClient (fun _ => true) (.response 200 none)
        (.response 200 (some testApiResponse)) randMax outcomesAll503 "0tok" =
      .ok { Metadata :=
              { StreamName := "Holiday", UserFirstName := "", UserLastName := "",
                StreamCTag := "", ItemsReturned := 0, Locations := "null" },
            Photos := [testPhotoPriority] } :=
  (GetICloudPhotosWithClient_asset_failure (fun _ => true) (.response 200 none)
    (.response 200 (some testApiResponse)) randMax outcomesAll503 "0tok"
    "https://p01-sharedstreams.icloud.com/0tok/sharedstreams/"
    "https://p01-sharedstreams.icloud.com/0tok/sharedstreams/"
    [testPhotoPriority]
    { StreamName := "Holiday", UserFirstName := "", UserLastName := "",
      StreamCTag := "", ItemsReturned := 0, Locations := "null" }
    (by decide) (by decide) (by decide)).2
    { result := .error (.status 503), requests := 4,
      sleeps := delaysBefore DefaultRetryConfig randMax 3 }
    (by decide) (Or.inr ⟨_, rfl⟩)

/-! ### The result of derivative selection is an entry of the map -/

theorem selectStep_best_cases (tbl : Char → Char) (st : SelectState)
    (kv : String × Derivative) :
    ((selectStep tbl st kv).bestKey = st.bestKey ∧ (selectStep tbl st kv).best = st.best) ∨
    ((selectStep tbl st kv).bestKey = kv.1 ∧ (selectStep tbl st kv).best = some kv.2 ∧
      kv.2.URL.isSome = true) := by
  obtain ⟨k, v⟩ := kv
  unfold selectStep
  cases hu : v.URL with
  | none => exact Or.inl ⟨rfl, rfl⟩
  | some u =>
    cases hw : v.Width with
    | none =>
      simp only
      split_ifs
      · exact Or.inr ⟨rfl, rfl, rfl⟩
      · exact Or.inl ⟨rfl, rfl⟩
      · exact Or.inl ⟨rfl, rfl⟩
      · exact Or.inl ⟨rfl, rfl⟩
    | some w =>
      cases hh : v.Height with
      | none =>
        simp only
        split_ifs
        · exact Or.inr ⟨rfl, rfl, rfl⟩
        · exact Or.inl ⟨rfl, rfl⟩
        · exact Or.inl ⟨rfl, rfl⟩
        · exact Or.inl ⟨rfl, rfl⟩
      | some h =>
        simp only
        split_ifs
        · exact Or.inr ⟨rfl, rfl, rfl⟩
        · exact Or.inl ⟨rfl, rfl⟩
        · exact Or.inr ⟨rfl, rfl, rfl⟩
        · exact Or.inl ⟨rfl, rfl⟩
        · exact Or.inl ⟨rfl, rfl⟩

theorem foldl_selectStep_best (tbl : Char → Char) (l : List (String × Derivative)) :
    ∀ b, (l.foldl (selectStep tbl) SelectState.init).best = some b →
      ((l.foldl (selectStep tbl) SelectState.init).bestKey, b) ∈ l ∧ b.URL.isSome = true :=
  foldl_invariant (selectStep tbl)
    (fun st => ∀ b, st.best = some b → (st.bestKey, b) ∈ l ∧ b.URL.isSome = true) l
    (fun st kv hkv hst b hb => by
      rcases selectStep_best_cases tbl st kv with ⟨h1, h2⟩ | ⟨h1, h2, h3⟩
      · rw [h1]
        exact hst b (by rw [← h2]; exact hb)
      · rw [h2] at hb
        injection hb with hb
        subst hb
        rw [h1]
        exact ⟨hkv, h3⟩)
    SelectState.init (fun b hb => Option.noConfusion hb)

theorem mapGet_of_mem_nodup {V : Type} (m : List (String × V)) (k : String) (v : V)
    (hnd : (mapKeys m).Nodup) (h : (k, v) ∈ m) : mapGet m k = some v := by
  obtain ⟨s, t, rfl⟩ := List.append_of_mem h
  have hk : k ∉ mapKeys s := by
    intro hm
    simp only [mapKeys, List.map_append, List.map_cons] at hnd hm
    exact (List.nodup_append.mp hnd).2.2 hm (List.mem_cons_self _ _)
  exact mapGet_append_cons s t k v hk

/-- C31: whenever `SelectBestDerivative` returns ok = true, for every map and every
visiting order of both loops, the returned key is a key of the map, the returned
derivative is the entry of the map for that key, that derivative has a URL, and the
returned url is that URL. -/
theorem SelectBestDerivative_result_is_entry (tbl : Char → Char)
    (derivs loop1 loop2 : List (String × Derivative))
    (hnd : (mapKeys derivs).Nodup) (h1 : loop1.Perm derivs) (h2 : loop2.Perm derivs)
    (hok : (SelectBestDerivative tbl loop1 loop2).ok = true) :
    (SelectBestDerivative tbl loop1 loop2).key ∈ mapKeys derivs ∧
    mapGet derivs (SelectBestDerivative tbl loop1 loop2).key =
      some (SelectBestDerivative tbl loop1 loop2).d ∧
    (SelectBestDerivative tbl loop1 loop2).d.URL =
      some (SelectBestDerivative tbl loop1 loop2).url := by
  have hentry : ∀ (k : String) (d : Derivative), (k, d) ∈ derivs → d.URL.isSome = true →
      k ∈ mapKeys derivs ∧ mapGet derivs k = some d ∧ d.URL = some (d.URL.getD "") := by
    intro k d hmem hurl
    refine ⟨?_, mapGet_of_mem_nodup derivs k d hnd hmem, ?_⟩
    · exact List.mem_map.mpr ⟨(k, d), hmem, rfl⟩
    · cases hu : d.URL with
      | none => rw [hu] at hurl; exact Bool.noConfusion hurl
      | some u => rfl
  unfold SelectBestDerivative at hok ⊢
  by_cases h0 : loop1.length = 0
  · rw [if_pos h0] at hok
    exact Bool.noConfusion hok
  · rw [if_neg h0] at hok ⊢
    simp only at hok ⊢
    cases hb : (loop1.foldl (selectStep tbl) SelectState.init).best with
    | some b =>
      simp only [hb]
      obtain ⟨hmem, hurl⟩ := foldl_selectStep_best tbl loop1 b hb
      exact hentry _ b (h1.mem_iff.mp hmem) hurl
    | none =>
      simp only [hb] at hok ⊢
      cases hf : loop2.find? (fun kv => kv.2.URL.isSome) with
      | none =>
        rw [hf] at hok
        exact Bool.noConfusion hok
      | some kv =>
        simp only
        have hmem : kv ∈ loop2 := List.mem_of_find?_eq_some hf
        have hurl : kv.2.URL.isSome = true := by
          have := List.find?_some hf
          simpa using this
        exact hentry kv.1 kv.2 (h2.mem_iff.mp hmem) hurl

theorem SelectBestDerivative_result_is_entry_witness :
    mapGet [("thumbnail", testThumbnail), ("original", testOriginal)]
        (SelectBestDerivative id [("original", testOriginal), ("thumbnail", testThumbnail)]
          [("thumbnail", testThumbnail), ("original", testOriginal)]).key =
      some (SelectBestDerivative id [("original", testOriginal), ("thumbnail", testThumbnail)]
          [("thumbnail", testThumbnail), ("original", testOriginal)]).d ∧
    (SelectBestDerivative id [("original", testOriginal), ("thumbnail", testThumbnail)]
        [("thumbnail", testThumbnail), ("original", testOriginal)]).d.URL =
      some (SelectBestDerivative id [("original", testOriginal), ("thumbnail", testThumbnail)]
        [("thumbnail", testThumbnail), ("original", testOriginal)]).url :=
  (SelectBestDerivative_result_is_entry id
    [("thumbnail", testThumbnail), ("original", testOriginal)]
    [("original", testOriginal), ("thumbnail", testThumbnail)]
    [("thumbnail", testThumbnail), ("original", testOriginal)]
    (by simp [mapKeys]) (List.Perm.swap _ _ _) (List.Perm.refl _) (by decide)).2

/-- C32: decoding the JSON number 4294967297 into a fresh `Uint32OrString` yields 1,
a non-zero value different from the number, while decoding the JSON string
`4294967297` yields the default 0: the number is converted by `uint32(n)` without a
range check, the string is parsed with bit size 32. -/
theorem Uint32OrString_number_truncated :
    Nat.repr 4294967297 = "4294967297" ∧
    Uint32OrString.UnmarshalJSON 0 (.number "4294967297") = .ok 1 ∧
    Uint32OrString.UnmarshalJSON 0 (.str "4294967297") = .ok 0 ∧
    Uint32OrString.UnmarshalJSON 0 (.number "4294967297") ≠
      Uint32OrString.UnmarshalJSON 0 (.str "4294967297") := by
  decide


/-! ### enrich.go with the derivative maps held by reference -/

theorem EnrichPhotosWithURLsRef_other (allURLs : List (String × String)) (a : Nat) :
    ∀ (photos : List ImageRef) (heap : Nat → List (String × Derivative)),
      (∀ q ∈ photos, q.Derivatives ≠ a) →
      EnrichPhotosWithURLsRef photos allURLs heap a = heap a := by
  intro photos
  induction photos with
  | nil => intro heap _; rfl
  | cons q rest ih =>
    intro heap h
    have hq : a ≠ q.Derivatives := fun e => h q (List.mem_cons_self _ _) e.symm
    show EnrichPhotosWithURLsRef rest allURLs (enrichPhotoRef allURLs heap q) a = heap a
    rw [ih _ (fun r hr => h r (List.mem_cons_of_mem _ hr))]
    show (if a = q.Derivatives then _ else heap a) = heap a
    rw [if_neg hq]

/-- Where no other photo of the slice refers to the map of photo `p`, the map of `p`
after `EnrichPhotosWithURLsRef` is the map that `EnrichPhotosWithURLs` gives the photo
in the model where each photo holds a map of its own. -/
theorem EnrichPhotosWithURLsRef_owned (allURLs : List (String × String)) :
    ∀ (photos : List ImageRef) (heap : Nat → List (String × Derivative)) (i : Nat)
      (p : ImageRef), photos[i]? = some p →
      (∀ j q, photos[j]? = some q → j ≠ i → q.Derivatives ≠ p.Derivatives) →
      EnrichPhotosWithURLsRef photos allURLs heap p.Derivatives =
        (enrichPhoto allURLs (p.toImage heap)).Derivatives := by
  intro photos
  induction photos with
  | nil => intro heap i p hp; simp at hp
  | cons q rest ih =>
    intro heap i p hp hown
    cases i with
    | zero =>
      have hqp : q = p := by simpa using hp
      subst hqp
      show EnrichPhotosWithURLsRef rest allURLs (enrichPhotoRef allURLs heap q) q.Derivatives = _
      rw [EnrichPhotosWithURLsRef_other allURLs q.Derivatives rest _ (by
        intro r hr
        obtain ⟨j, hj⟩ := List.getElem?_of_mem hr
        exact hown (j + 1) r (by simpa using hj) (by omega))]
      show (if q.Derivatives = q.Derivatives then _ else _) = _
      rw [if_pos rfl]; rfl
    | succ i =>
      have hp' : rest[i]? = some p := by simpa using hp
      have hq : p.Derivatives ≠ q.Derivatives :=
        fun e => hown 0 q (by simp) (by omega) e.symm
      show EnrichPhotosWithURLsRef rest allURLs (enrichPhotoRef allURLs heap q) p.Derivatives = _
      rw [ih (enrichPhotoRef allURLs heap q) i p hp' (by
        intro j r hj hne
        exact hown (j + 1) r (by simpa using hj) (by omega))]
      have hh : enrichPhotoRef allURLs heap q p.Derivatives = heap p.Derivatives := by
        show (if p.Derivatives = q.Derivatives then _ else _) = _
        rw [if_neg hq]
      show enrichDerivs allURLs p.PhotoGUID (enrichPhotoRef allURLs heap q p.Derivatives) =
        enrichDerivs allURLs p.PhotoGUID (heap p.Derivatives)
      rw [hh]

/-- Where no other photo of the slice refers to the map of photo `p`, and the keys of
that map are distinct, the URL of every derivative `d` of `p` after
`EnrichPhotosWithURLsRef` is the URL `d` had if it was set, otherwise
`allURLs[d.Checksum]` if the checksum is a key, otherwise `allURLs[p.PhotoGUID]` if the
GUID is a key, otherwise unset. -/
theorem EnrichPhotosWithURLsRef_owned_urls (allURLs : List (String × String))
    (photos : List ImageRef) (heap : Nat → List (String × Derivative)) (i : Nat)
    (p : ImageRef) (hp : photos[i]? = some p)
    (hown : ∀ j q, photos[j]? = some q → j ≠ i → q.Derivatives ≠ p.Derivatives)
    (hnd : (mapKeys (heap p.Derivatives)).Nodup) :
    ∀ k d, mapGet (heap p.Derivatives) k = some d →
      ∃ d', mapGet (EnrichPhotosWithURLsRef photos allURLs heap p.Derivatives) k = some d' ∧
        d'.URL = specEnrichedURL allURLs p.PhotoGUID d := by
  intro k d hk
  refine ⟨enrichDerivative allURLs p.PhotoGUID d, ?_, enrichDerivative_URL _ _ _⟩
  rw [EnrichPhotosWithURLsRef_owned allURLs photos heap i p hp hown,
    enrichPhoto_eq allURLs (p.toImage heap) hnd]
  show mapGet ((heap p.Derivatives).map _) k = _
  rw [mapGet_map, hk]; rfl

/-- C28: with one derivative map shared by the photos `a` and `b`, holding a derivative
`x` without URL whose checksum is no key of `allURLs`, and `allURLs` holding a URL under
the GUID of `b` only, the derivative `x` of photo `a` has the URL of `b` after
`EnrichPhotosWithURLs`, in either order of the two photos, where the postcondition
(the original URL, else the checksum's, else the one of the photo's own GUID, else
unset) leaves it unset, as enriching `a` alone does. -/
theorem EnrichPhotosWithURLs_shared_map :
    sharedPhotoA.Derivatives = sharedPhotoB.Derivatives ∧
    mapGet (sharedHeap sharedPhotoA.Derivatives) "x" = some sharedDerivative ∧
    specEnrichedURL sharedURLs sharedPhotoA.PhotoGUID sharedDerivative = none ∧
    (mapGet (EnrichPhotosWithURLsRef [sharedPhotoA, sharedPhotoB] sharedURLs sharedHeap
        sharedPhotoA.Derivatives) "x").map (fun d => d.URL) =
      some (some "https://example.com/b.jpg") ∧
    (mapGet (EnrichPhotosWithURLsRef [sharedPhotoB, sharedPhotoA] sharedURLs sharedHeap
        sharedPhotoA.Derivatives) "x").map (fun d => d.URL) =
      some (some "https://example.com/b.jpg") ∧
    (mapGet (EnrichPhotosWithURLsRef [sharedPhotoA] sharedURLs sharedHeap
        sharedPhotoA.Derivatives) "x").map (fun d => d.URL) = some none := by
  decide

end ICloudAlbum
